import Mathlib

/-!
Verification of `src/encryption.py` (web3-wallet-transcryptor).

The Python module implements an X25519-XSalsa20-Poly1305 "box" envelope
scheme on top of PyNaCl.  We give a shallow embedding:

* byte strings are `List Nat` with every element `< 256`;
* Python's `base64.b64encode` / `base64.b64decode` (the lenient,
  `validate=False` variant used throughout the module) are modelled
  character-by-character after CPython's `binascii.a2b_base64`
  non-strict state machine: characters outside the alphabet are
  discarded, `=` finishes a quad once at least two data characters of
  the quad are present, and a leftover partial quad is an error;
* UTF-8 encoding/decoding of messages is modelled at the `Char` level;
* the NaCl primitives (`PrivateKey`, `PublicKey`, `Box.encrypt`,
  `Box.decrypt`, X25519) are external audited library code (spec §1
  places them out of scope), so they are modelled as an ideal
  commutative-Diffie-Hellman authenticated-encryption scheme: scalars
  act on group elements by multiplication modulo an odd modulus `P`
  (which gives the `dh a (pub b) = dh b (pub a)` symmetry of the real
  curve), the ciphertext is a 16-byte tag followed by the keystream-
  XORed body, and the tag is a keyed polynomial checksum modulo an odd
  modulus `Q` that detects every single-bit change of nonce, public
  key, or ciphertext — the idealised form of what Poly1305 provides;
* Python exceptions become an `Except PyExc` monad; the module's
  `try/except` wrappers become explicit match wrappers.

Field names, validation order, which checks are missing (e.g. no nonce
length check before `Box.decrypt`), and the exception classification
follow the Python source line by line.
-/

namespace Transcryptor

/-! ## Byte sequences -/

/-- Value of a little-endian byte sequence. -/
def bytesToNat : List Nat → Nat
  | [] => 0
  | b :: rest => b + 256 * bytesToNat rest

/-- Little-endian encoding of `v` into exactly `w` bytes. -/
def natToBytesLE : Nat → Nat → List Nat
  | 0, _ => []
  | w + 1, v => (v % 256) :: natToBytesLE w (v / 256)

/-- Wellformedness of a byte sequence: every entry is a byte value. -/
def BytesWF (bs : List Nat) : Prop := ∀ b ∈ bs, b < 256

instance : DecidablePred BytesWF := fun bs =>
  inferInstanceAs (Decidable (∀ b ∈ bs, b < 256))

theorem natToBytesLE_length (w v : Nat) : (natToBytesLE w v).length = w := by
  induction w generalizing v with
  | zero => rfl
  | succ w ih => simp [natToBytesLE, ih]

theorem natToBytesLE_wf (w v : Nat) : BytesWF (natToBytesLE w v) := by
  induction w generalizing v with
  | zero => intro b hb; simp [natToBytesLE] at hb
  | succ w ih =>
    intro b hb
    simp only [natToBytesLE, List.mem_cons] at hb
    rcases hb with h | h
    · subst h; exact Nat.mod_lt _ (by omega)
    · exact ih (v / 256) b h

theorem bytesToNat_natToBytesLE (w v : Nat) (h : v < 256 ^ w) :
    bytesToNat (natToBytesLE w v) = v := by
  induction w generalizing v with
  | zero => simp [natToBytesLE, bytesToNat]; omega
  | succ w ih =>
    simp only [natToBytesLE, bytesToNat]
    rw [ih (v / 256) (by
      have : 256 ^ (w + 1) = 256 ^ w * 256 := by ring
      rw [this] at h
      exact Nat.div_lt_of_lt_mul (by omega))]
    omega

theorem bytesToNat_lt (bs : List Nat) (h : BytesWF bs) :
    bytesToNat bs < 256 ^ bs.length := by
  induction bs with
  | nil => simp [bytesToNat]
  | cons b rest ih =>
    have hb : b < 256 := h b (List.mem_cons_self _ _)
    have hr := ih (fun x hx => h x (List.mem_cons_of_mem _ hx))
    simp only [bytesToNat, List.length_cons]
    have : 256 ^ (rest.length + 1) = 256 * 256 ^ rest.length := by ring
    rw [this]
    omega

theorem bytesToNat_inj {xs ys : List Nat} (hx : BytesWF xs) (hy : BytesWF ys)
    (hlen : xs.length = ys.length) (h : bytesToNat xs = bytesToNat ys) : xs = ys := by
  induction xs generalizing ys with
  | nil => cases ys with
    | nil => rfl
    | cons y t => simp at hlen
  | cons x xt ih =>
    cases ys with
    | nil => simp at hlen
    | cons y yt =>
      have hxb : x < 256 := hx x (List.mem_cons_self _ _)
      have hyb : y < 256 := hy y (List.mem_cons_self _ _)
      simp only [bytesToNat] at h
      have hxy : x = y := by omega
      subst hxy
      have ht : bytesToNat xt = bytesToNat yt := by omega
      have := ih (fun b hb => hx b (List.mem_cons_of_mem _ hb))
        (fun b hb => hy b (List.mem_cons_of_mem _ hb))
        (by simpa using hlen) ht
      rw [this]

/-! ## Base64 (Python `base64.b64encode` / lenient `base64.b64decode`) -/

/-- Character of a 6-bit value in the standard base64 alphabet. -/
def b64Char (n : Nat) : Char :=
  if n < 26 then Char.ofNat (65 + n)
  else if n < 52 then Char.ofNat (97 + (n - 26))
  else if n < 62 then Char.ofNat (48 + (n - 52))
  else if n = 62 then Char.ofNat 43
  else Char.ofNat 47

/-- Index of a character in the base64 alphabet, `none` outside it. -/
def b64Index (c : Char) : Option Nat :=
  let n := c.toNat
  if 65 ≤ n ∧ n ≤ 90 then some (n - 65)
  else if 97 ≤ n ∧ n ≤ 122 then some (n - 97 + 26)
  else if 48 ≤ n ∧ n ≤ 57 then some (n - 48 + 52)
  else if n = 43 then some 62
  else if n = 47 then some 63
  else none

/-- Membership in the base64 alphabet (data characters only, no pad). -/
def inB64Alphabet (c : Char) : Bool := (b64Index c).isSome

/-- Base64 encoding of a byte sequence, three bytes per quad, `=`-padded,
exactly as `base64.b64encode` produces. -/
def b64EncodeChars : List Nat → List Char
  | [] => []
  | [a] => [b64Char (a / 4), b64Char (a % 4 * 16), '=', '=']
  | [a, b] => [b64Char (a / 4), b64Char (a % 4 * 16 + b / 16), b64Char (b % 16 * 4), '=']
  | a :: b :: c :: rest =>
    b64Char (a / 4) :: b64Char (a % 4 * 16 + b / 16) ::
    b64Char (b % 16 * 4 + c / 64) :: b64Char (c % 64) :: b64EncodeChars rest

/-- Bytes of a completed quad value (24 bits to 3 bytes). -/
def b64Quad (n : Nat) : List Nat := [n / 65536, n / 256 % 256, n % 256]

/-- Emit bytes of a quad finished early by padding: 2 data chars give one
byte, 3 give two. -/
def b64EmitPad (qp acc : Nat) : List Nat :=
  if qp = 2 then [acc / 16]
  else [acc / 1024, acc / 4 % 256]

/-- State machine of CPython `binascii.a2b_base64` in non-strict mode
(`base64.b64decode(s)` with `validate=False`): `qp` is the position
inside the current quad, `acc` the accumulated bits, `pads` the count of
pending `=` characters, `out` the bytes produced so far.  Characters
outside the alphabet are skipped; an `=` closing a quad (two data
characters plus enough pads) terminates decoding and ignores the rest;
a leftover partial quad at the end is an error. -/
def b64DecodeLoop : List Char → Nat → Nat → Nat → List Nat → Except String (List Nat)
  | [], qp, _, _, out =>
    if qp = 0 then .ok out
    else if qp = 1 then .error "Invalid base64-encoded string"
    else .error "Incorrect padding"
  | c :: rest, qp, acc, pads, out =>
    if c = '=' then
      if 2 ≤ qp ∧ 4 ≤ qp + pads + 1 then .ok (out ++ b64EmitPad qp acc)
      else b64DecodeLoop rest qp acc (pads + 1) out
    else
      match b64Index c with
      | none => b64DecodeLoop rest qp acc pads out
      | some v =>
        match qp with
        | 0 => b64DecodeLoop rest 1 v 0 out
        | 1 => b64DecodeLoop rest 2 (acc * 64 + v) 0 out
        | 2 => b64DecodeLoop rest 3 (acc * 64 + v) 0 out
        | _ => b64DecodeLoop rest 0 0 0 (out ++ b64Quad (acc * 64 + v))

/-- Model of `base64.b64encode(data).decode("utf-8")`. -/
def b64encode (bs : List Nat) : String := String.mk (b64EncodeChars bs)

/-- Model of `base64.b64decode(s)` (lenient, `validate=False`). -/
def pyB64Decode (s : String) : Except String (List Nat) :=
  b64DecodeLoop s.data 0 0 0 []

theorem b64Index_b64Char : ∀ n, n < 64 → b64Index (b64Char n) = some n := by decide

theorem b64Char_ne_pad : ∀ n, n < 64 → b64Char n ≠ '=' := by decide

theorem b64DecodeLoop_data0 {c : Char} {v : Nat} (hv : b64Index c = some v)
    (hne : c ≠ '=') (rest : List Char) (acc pads : Nat) (out : List Nat) :
    b64DecodeLoop (c :: rest) 0 acc pads out = b64DecodeLoop rest 1 v 0 out := by
  simp [b64DecodeLoop, hne, hv]

theorem b64DecodeLoop_data1 {c : Char} {v : Nat} (hv : b64Index c = some v)
    (hne : c ≠ '=') (rest : List Char) (acc pads : Nat) (out : List Nat) :
    b64DecodeLoop (c :: rest) 1 acc pads out =
      b64DecodeLoop rest 2 (acc * 64 + v) 0 out := by
  simp [b64DecodeLoop, hne, hv]

theorem b64DecodeLoop_data2 {c : Char} {v : Nat} (hv : b64Index c = some v)
    (hne : c ≠ '=') (rest : List Char) (acc pads : Nat) (out : List Nat) :
    b64DecodeLoop (c :: rest) 2 acc pads out =
      b64DecodeLoop rest 3 (acc * 64 + v) 0 out := by
  simp [b64DecodeLoop, hne, hv]

theorem b64DecodeLoop_data3 {c : Char} {v : Nat} (hv : b64Index c = some v)
    (hne : c ≠ '=') (rest : List Char) (acc pads : Nat) (out : List Nat) :
    b64DecodeLoop (c :: rest) 3 acc pads out =
      b64DecodeLoop rest 0 0 0 (out ++ b64Quad (acc * 64 + v)) := by
  simp [b64DecodeLoop, hne, hv]

theorem b64DecodeLoop_pad (rest : List Char) (qp acc pads : Nat) (out : List Nat) :
    b64DecodeLoop ('=' :: rest) qp acc pads out =
      if 2 ≤ qp ∧ 4 ≤ qp + pads + 1 then .ok (out ++ b64EmitPad qp acc)
      else b64DecodeLoop rest qp acc (pads + 1) out := by
  simp [b64DecodeLoop]

theorem b64DecodeLoop_encode (bs : List Nat) (hwf : BytesWF bs) :
    ∀ (pads : Nat) (out : List Nat),
      b64DecodeLoop (b64EncodeChars bs) 0 0 pads out = .ok (out ++ bs) := by
  induction bs using b64EncodeChars.induct with
  | case1 =>
    intro pads out
    simp [b64EncodeChars, b64DecodeLoop]
  | case2 a =>
    intro pads out
    have ha : a < 256 := hwf a (by simp)
    have h1 : a / 4 < 64 := by omega
    have h2 : a % 4 * 16 < 64 := by omega
    rw [show b64EncodeChars [a] =
      b64Char (a / 4) :: [b64Char (a % 4 * 16), '=', '='] from rfl]
    rw [b64DecodeLoop_data0 (b64Index_b64Char _ h1) (b64Char_ne_pad _ h1)]
    rw [b64DecodeLoop_data1 (b64Index_b64Char _ h2) (b64Char_ne_pad _ h2)]
    rw [b64DecodeLoop_pad, if_neg (by omega)]
    rw [b64DecodeLoop_pad, if_pos (by omega)]
    have he : (a / 4 * 64 + a % 4 * 16) / 16 = a := by omega
    simp [b64EmitPad, he]
  | case3 a b =>
    intro pads out
    have ha : a < 256 := hwf a (by simp)
    have hb : b < 256 := hwf b (by simp)
    have h1 : a / 4 < 64 := by omega
    have h2 : a % 4 * 16 + b / 16 < 64 := by omega
    have h3 : b % 16 * 4 < 64 := by omega
    rw [show b64EncodeChars [a, b] =
      b64Char (a / 4) :: [b64Char (a % 4 * 16 + b / 16), b64Char (b % 16 * 4), '='] from rfl]
    rw [b64DecodeLoop_data0 (b64Index_b64Char _ h1) (b64Char_ne_pad _ h1)]
    rw [b64DecodeLoop_data1 (b64Index_b64Char _ h2) (b64Char_ne_pad _ h2)]
    rw [b64DecodeLoop_data2 (b64Index_b64Char _ h3) (b64Char_ne_pad _ h3)]
    rw [b64DecodeLoop_pad, if_pos (by omega)]
    have he1 : ((a / 4 * 64 + (a % 4 * 16 + b / 16)) * 64 + b % 16 * 4) / 1024 = a := by
      omega
    have he2 : ((a / 4 * 64 + (a % 4 * 16 + b / 16)) * 64 + b % 16 * 4) / 4 % 256 = b := by
      omega
    simp [b64EmitPad, he1, he2]
  | case4 a b c rest ih =>
    intro pads out
    have ha : a < 256 := hwf a (by simp)
    have hb : b < 256 := hwf b (by simp)
    have hc : c < 256 := hwf c (by simp)
    have hrest : BytesWF rest := fun x hx => hwf x (by simp [hx])
    have h1 : a / 4 < 64 := by omega
    have h2 : a % 4 * 16 + b / 16 < 64 := by omega
    have h3 : b % 16 * 4 + c / 64 < 64 := by omega
    have h4 : c % 64 < 64 := by omega
    rw [show b64EncodeChars (a :: b :: c :: rest) =
      b64Char (a / 4) :: b64Char (a % 4 * 16 + b / 16) ::
      b64Char (b % 16 * 4 + c / 64) :: b64Char (c % 64) :: b64EncodeChars rest from rfl]
    rw [b64DecodeLoop_data0 (b64Index_b64Char _ h1) (b64Char_ne_pad _ h1)]
    rw [b64DecodeLoop_data1 (b64Index_b64Char _ h2) (b64Char_ne_pad _ h2)]
    rw [b64DecodeLoop_data2 (b64Index_b64Char _ h3) (b64Char_ne_pad _ h3)]
    rw [b64DecodeLoop_data3 (b64Index_b64Char _ h4) (b64Char_ne_pad _ h4)]
    have hq1 : (((a / 4 * 64 + (a % 4 * 16 + b / 16)) * 64 +
        (b % 16 * 4 + c / 64)) * 64 + c % 64) / 65536 = a := by omega
    have hq2 : (((a / 4 * 64 + (a % 4 * 16 + b / 16)) * 64 +
        (b % 16 * 4 + c / 64)) * 64 + c % 64) / 256 % 256 = b := by omega
    have hq3 : (((a / 4 * 64 + (a % 4 * 16 + b / 16)) * 64 +
        (b % 16 * 4 + c / 64)) * 64 + c % 64) % 256 = c := by omega
    have hquad : b64Quad (((a / 4 * 64 + (a % 4 * 16 + b / 16)) * 64 +
        (b % 16 * 4 + c / 64)) * 64 + c % 64) = [a, b, c] := by
      simp [b64Quad, hq1, hq2, hq3]
    rw [hquad, ih hrest 0 (out ++ [a, b, c])]
    simp

theorem pyB64Decode_b64encode (bs : List Nat) (hwf : BytesWF bs) :
    pyB64Decode (b64encode bs) = .ok bs := by
  have := b64DecodeLoop_encode bs hwf 0 []
  simpa [pyB64Decode, b64encode] using this

/-! ## UTF-8 (`str.encode("utf-8")` / `bytes.decode("utf-8")`) -/

/-- UTF-8 bytes of one character. -/
def utf8EncChar (c : Char) : List Nat :=
  let n := c.toNat
  if n < 128 then [n]
  else if n < 2048 then [192 + n / 64, 128 + n % 64]
  else if n < 65536 then [224 + n / 4096, 128 + n / 64 % 64, 128 + n % 64]
  else [240 + n / 262144, 128 + n / 4096 % 64, 128 + n / 64 % 64, 128 + n % 64]

/-- Model of `msg.encode("utf-8")` as a byte sequence. -/
def utf8Encode (s : String) : List Nat := (s.data.map utf8EncChar).flatten

/-- UTF-8 byte length of a string, `len(msg.encode("utf-8"))`. -/
def utf8ByteLen (s : String) : Nat := (utf8Encode s).length

/-- Decoding of one UTF-8 sequence continuing after a 2-byte lead. -/
def utf8DecTwo (b : Nat) : List Nat → Option (Char × List Nat)
  | b2 :: r =>
    if 128 ≤ b2 ∧ b2 < 192 then some (Char.ofNat ((b - 192) * 64 + (b2 - 128)), r)
    else none
  | [] => none

/-- Decoding of one UTF-8 sequence continuing after a 3-byte lead. -/
def utf8DecThree (b : Nat) : List Nat → Option (Char × List Nat)
  | b2 :: b3 :: r =>
    if (128 ≤ b2 ∧ b2 < 192) ∧ (128 ≤ b3 ∧ b3 < 192) then
      some (Char.ofNat ((b - 224) * 4096 + (b2 - 128) * 64 + (b3 - 128)), r)
    else none
  | _ => none

/-- Decoding of one UTF-8 sequence continuing after a 4-byte lead. -/
def utf8DecFour (b : Nat) : List Nat → Option (Char × List Nat)
  | b2 :: b3 :: b4 :: r =>
    if (128 ≤ b2 ∧ b2 < 192) ∧ (128 ≤ b3 ∧ b3 < 192) ∧ (128 ≤ b4 ∧ b4 < 192) then
      some (Char.ofNat ((b - 240) * 262144 + (b2 - 128) * 4096 +
        (b3 - 128) * 64 + (b4 - 128)), r)
    else none
  | _ => none

/-- Decoding of the first UTF-8 character of a byte sequence, with the
remaining bytes; `none` on a malformed sequence or empty input. -/
def utf8DecOne : List Nat → Option (Char × List Nat)
  | [] => none
  | b :: rest =>
    if b < 128 then some (Char.ofNat b, rest)
    else if b < 192 then none
    else if b < 224 then utf8DecTwo b rest
    else if b < 240 then utf8DecThree b rest
    else utf8DecFour b rest

/-- Fuel-indexed decoding loop; the fuel only bounds the number of
characters produced and is in surplus at `bs.length`. -/
def utf8DecodeAux : Nat → List Nat → Option (List Char)
  | _, [] => some []
  | 0, _ :: _ => none
  | fuel + 1, b :: rest =>
    match utf8DecOne (b :: rest) with
    | none => none
    | some (c, r) => (utf8DecodeAux fuel r).map (fun cs => c :: cs)

/-- Model of `decrypted_message.decode("utf-8")` (the
`UnicodeDecodeError` path is `none`). -/
def utf8Decode (bs : List Nat) : Option String :=
  (utf8DecodeAux bs.length bs).map String.mk

theorem Char.toNat_lt_top (c : Char) : c.toNat < 1114112 := by
  have h := c.valid
  rcases h with h | h
  · exact Nat.lt_trans h (by omega)
  · exact h.2

theorem utf8EncChar_wf (c : Char) : BytesWF (utf8EncChar c) := by
  have hc := Char.toNat_lt_top c
  intro b hb
  simp only [utf8EncChar] at hb
  split_ifs at hb <;>
    simp only [List.mem_cons, List.not_mem_nil, or_false] at hb <;>
    omega

theorem utf8DecOne_encChar (c : Char) (rest : List Nat) :
    utf8DecOne (utf8EncChar c ++ rest) = some (c, rest) := by
  have hc := Char.toNat_lt_top c
  have hoc := Char.ofNat_toNat c
  by_cases h1 : c.toNat < 128
  · simp only [utf8EncChar, if_pos h1, List.cons_append, List.nil_append]
    rw [utf8DecOne]
    rw [if_pos h1, hoc]
  · by_cases h2 : c.toNat < 2048
    · simp only [utf8EncChar, if_neg h1, if_pos h2, List.cons_append, List.nil_append]
      rw [utf8DecOne]
      rw [if_neg (by omega), if_neg (by omega), if_pos (by omega)]
      rw [utf8DecTwo]
      rw [if_pos (by omega)]
      have he : (192 + c.toNat / 64 - 192) * 64 + (128 + c.toNat % 64 - 128) = c.toNat := by
        omega
      rw [he, hoc]
    · by_cases h3 : c.toNat < 65536
      · simp only [utf8EncChar, if_neg h1, if_neg h2, if_pos h3,
          List.cons_append, List.nil_append]
        rw [utf8DecOne]
        rw [if_neg (by omega), if_neg (by omega), if_neg (by omega), if_pos (by omega)]
        rw [utf8DecThree]
        rw [if_pos (by constructor <;> constructor <;> omega)]
        have he : (224 + c.toNat / 4096 - 224) * 4096 +
            (128 + c.toNat / 64 % 64 - 128) * 64 + (128 + c.toNat % 64 - 128) = c.toNat := by
          omega
        rw [he, hoc]
      · simp only [utf8EncChar, if_neg h1, if_neg h2, if_neg h3,
          List.cons_append, List.nil_append]
        rw [utf8DecOne]
        rw [if_neg (by omega), if_neg (by omega), if_neg (by omega), if_neg (by omega)]
        rw [utf8DecFour]
        rw [if_pos (by refine ⟨⟨?_, ?_⟩, ⟨?_, ?_⟩, ?_, ?_⟩ <;> omega)]
        have he : (240 + c.toNat / 262144 - 240) * 262144 +
            (128 + c.toNat / 4096 % 64 - 128) * 4096 +
            (128 + c.toNat / 64 % 64 - 128) * 64 + (128 + c.toNat % 64 - 128) = c.toNat := by
          omega
        rw [he, hoc]

theorem utf8EncChar_ne_nil (c : Char) : utf8EncChar c ≠ [] := by
  simp only [utf8EncChar]
  split_ifs <;> simp

theorem utf8DecodeAux_encode (cs : List Char) :
    ∀ fuel, cs.length ≤ fuel →
      utf8DecodeAux fuel ((cs.map utf8EncChar).flatten) = some cs := by
  induction cs with
  | nil => intro fuel _; cases fuel <;> rfl
  | cons c rest ih =>
    intro fuel hf
    cases fuel with
    | zero => simp at hf
    | succ f =>
      simp only [List.map_cons, List.flatten_cons]
      obtain ⟨b, bs, hbs⟩ : ∃ b bs, utf8EncChar c ++ (rest.map utf8EncChar).flatten =
          b :: bs := by
        cases he : utf8EncChar c with
        | nil => exact absurd he (utf8EncChar_ne_nil c)
        | cons x xs => exact ⟨x, xs ++ (rest.map utf8EncChar).flatten, by simp [he]⟩
      rw [hbs, utf8DecodeAux, ← hbs, utf8DecOne_encChar]
      simp only [ih f (by simpa using hf)]
      rfl

theorem length_le_utf8Encode_length (cs : List Char) :
    cs.length ≤ ((cs.map utf8EncChar).flatten).length := by
  induction cs with
  | nil => simp
  | cons c rest ih =>
    simp only [List.map_cons, List.flatten_cons, List.length_append, List.length_cons]
    have h1 : 1 ≤ (utf8EncChar c).length := by
      cases he : utf8EncChar c with
      | nil => exact absurd he (utf8EncChar_ne_nil c)
      | cons x xs => simp
    omega

theorem utf8Decode_utf8Encode (s : String) : utf8Decode (utf8Encode s) = some s := by
  have h := utf8DecodeAux_encode s.data (utf8Encode s).length
    (by simpa [utf8Encode] using length_le_utf8Encode_length s.data)
  simp only [utf8Decode, utf8Encode] at h ⊢
  rw [h]
  rfl

theorem utf8Encode_wf (s : String) : BytesWF (utf8Encode s) := by
  intro b hb
  simp only [utf8Encode, List.mem_flatten] at hb
  obtain ⟨l, hl, hbl⟩ := hb
  simp only [List.mem_map] at hl
  obtain ⟨c, _, rfl⟩ := hl
  exact utf8EncChar_wf c b hbl

theorem utf8ByteLen_eq_zero_iff (s : String) : utf8ByteLen s = 0 ↔ s = "" := by
  constructor
  · intro h
    cases s with
    | mk data =>
      cases data with
      | nil => rfl
      | cons c rest =>
        exfalso
        simp only [utf8ByteLen, utf8Encode, List.map_cons, List.flatten_cons,
          List.length_append, Nat.add_eq_zero] at h
        exact utf8EncChar_ne_nil c (List.eq_nil_of_length_eq_zero h.1)
  · intro h
    subst h
    rfl

/-! ## NaCl primitives (ideal model)

The spec (§1) treats the Curve25519/XSalsa20/Poly1305 primitives as an
external, audited library.  They are modelled as an ideal commutative
Diffie-Hellman plus ideal one-time authenticator: scalars act on group
elements by multiplication modulo the odd constant `P`, and the 16-byte
tag is a keyed checksum modulo the odd constant `Q` whose algebra makes
every key change and every single-bit nonce/ciphertext change detected,
which is the guarantee the spec ascribes to the real primitives. -/

/-- Group modulus of the ideal Diffie-Hellman model (odd). -/
def P : Nat := 2 ^ 89 - 1

/-- Tag modulus of the ideal authenticator model (odd, larger than `P`). -/
def Q : Nat := 2 ^ 127 - 1

/-- Generator of the ideal group. -/
def G : Nat := 9

/-- Private scalar derived from the 32 random key bytes (the model's
clamping); always in `[1, P-1]`, hence never divisible by `P`. -/
def clampScalar (sk : List Nat) : Nat := bytesToNat sk % (P - 1) + 1

/-- Model of `private_key.public_key` (`crypto_scalarmult_base`). -/
def scalarmultBase (sk : List Nat) : List Nat :=
  natToBytesLE 32 (clampScalar sk * G % P)

/-- Model of the shared secret computed by `nacl.public.Box(sk, pk)`. -/
def sharedKey (sk pk : List Nat) : Nat := clampScalar sk * bytesToNat pk % P

/-- Polynomial accumulator over the ciphertext bytes (Horner form with
base 7): byte `i` contributes `b * 7 ^ (i + 1)`. -/
def polyAcc : List Nat → Nat
  | [] => 0
  | b :: r => 7 * (b + polyAcc r)

/-- Keyed authenticator value (ideal Poly1305). -/
def tagNat (k : Nat) (nonce body : List Nat) : Nat :=
  (3 * k + 5 * bytesToNat nonce + polyAcc body + 11 * body.length) % Q

/-- Authenticator as the 16 tag bytes prepended to a NaCl ciphertext. -/
def macTag (k : Nat) (nonce body : List Nat) : List Nat :=
  natToBytesLE 16 (tagNat k nonce body)

/-- Keystream XOR (ideal XSalsa20): byte `i` of the stream for key `k`
and nonce value `n` is `(k + n + i) % 256`. -/
def xorStream (k n : Nat) : Nat → List Nat → List Nat
  | _, [] => []
  | i, b :: r => (b ^^^ ((k + n + i) % 256)) :: xorStream k n (i + 1) r

/-- Model of `box.encrypt(msg, nonce)`: PyNaCl returns
`nonce ‖ tag ‖ encrypted-body`; the module slices off the first 24
bytes (`[24:]`). -/
def boxEncrypt (k : Nat) (nonce msg : List Nat) : List Nat :=
  nonce ++ macTag k nonce (xorStream k (bytesToNat nonce) 0 msg) ++
    xorStream k (bytesToNat nonce) 0 msg

/-! ## Python exceptions -/

/-- Exceptions observable from the module: the three classes it defines
plus `otherError` for exceptions of foreign classes (`nacl` errors,
`binascii.Error`, ...), which the wrappers re-wrap. -/
inductive PyExc where
  | invalidKey (msg : String)
  | invalidMessage (msg : String)
  | encryptionError (msg : String)
  | otherError (msg : String)
deriving DecidableEq

/-- Exceptions caught by `except (InvalidKeyError, InvalidMessageError)`. -/
def PyExc.isInvalid : PyExc → Bool
  | .invalidKey _ => true
  | .invalidMessage _ => true
  | _ => false

/-- Message payload of an exception. -/
def PyExc.text : PyExc → String
  | .invalidKey m => m
  | .invalidMessage m => m
  | .encryptionError m => m
  | .otherError m => m

/-- Model of the trailing `except (InvalidKeyError, InvalidMessageError):
raise / except Exception as e: raise EncryptionError(pre + str(e))`
wrapper of `encrypt_message` and `decrypt_message`. -/
def wrapErrors (pre : String) : Except PyExc α → Except PyExc α
  | .ok a => .ok a
  | .error (.invalidKey m) => .error (.invalidKey m)
  | .error (.invalidMessage m) => .error (.invalidMessage m)
  | .error (.encryptionError m) => .error (.encryptionError (pre ++ m))
  | .error (.otherError m) => .error (.encryptionError (pre ++ m))

/-- Model of `nacl.public.Box.decrypt(ciphertext, nonce)`: PyNaCl
checks the nonce length and raises `ValueError` on mismatch; tag
verification failure (including a too-short ciphertext) raises
`CryptoError`.  Both are foreign exception classes. -/
def boxDecrypt (k : Nat) (nonce ct : List Nat) : Except PyExc (List Nat) :=
  if nonce.length ≠ 24 then
    .error (.otherError "The nonce must be exactly 24 bytes long")
  else if ct.take 16 = macTag k nonce (ct.drop 16) then
    .ok (xorStream k (bytesToNat nonce) 0 (ct.drop 16))
  else
    .error (.otherError "An error occurred trying to decrypt the message")

/-! ## The `Encryption` class -/

/-- Envelope dictionaries (`Dict[str, str]`) as association lists. -/
abbrev Env := List (String × String)

/-- `Encryption.VERSION`. -/
def VERSION : String := "x25519-xsalsa20-poly1305"

/-- `Encryption.MAX_MESSAGE_LENGTH` (1MB limit). -/
def MAX_MESSAGE_LENGTH : Nat := 1024 * 1024

/-- `Encryption._validate_message` (the `isinstance` check is subsumed
by typing): over-long, then empty, each `InvalidMessageError`. -/
def _validate_message (msg : String) : Except PyExc Unit :=
  if utf8ByteLen msg > MAX_MESSAGE_LENGTH then
    .error (.invalidMessage "Message exceeds maximum length")
  else if msg = "" then
    .error (.invalidMessage "Message cannot be empty")
  else
    .ok ()

/-- `Encryption._validate_public_key`: empty check, then decode and
length check inside a `try` whose handler re-raises `InvalidKeyError`
(so the in-`try` `InvalidKeyError` for a wrong length is itself caught
and re-wrapped — still an `InvalidKeyError`). -/
def _validate_public_key (key : String) : Except PyExc Unit :=
  if key = "" then
    .error (.invalidKey "Public key cannot be empty")
  else
    match pyB64Decode key with
    | .error e =>
      .error (.invalidKey ("Invalid public key format: Failed to decode data: " ++ e))
    | .ok bs =>
      if bs.length ≠ 32 then
        .error (.invalidKey "Invalid public key format: Invalid public key length")
      else
        .ok ()

/-- `Encryption._decode_base64`: decoding failures become
`EncryptionError`. -/
def _decode_base64 (s : String) : Except PyExc (List Nat) :=
  match pyB64Decode s with
  | .ok bs => .ok bs
  | .error e => .error (.encryptionError ("Failed to decode data: " ++ e))

/-- Body of `encrypt_message` (the code inside the outer `try`).  The
two random draws of the source — the ephemeral key pair and the
24-byte nonce — are passed as the explicit arguments `ephSk` and
`nonce`. -/
def encryptBody (receiver_public_key msg : String)
    (ephSk nonce : List Nat) : Except PyExc Env :=
  match _validate_message msg with
  | .error e => .error e
  | .ok _ =>
    match _validate_public_key receiver_public_key with
    | .error e => .error e
    | .ok _ =>
      match pyB64Decode receiver_public_key with
      | .error e => .error (.otherError e)
      | .ok pubBytes =>
        if pubBytes.length ≠ 32 then
          .error (.otherError "PublicKey must be created from 32 bytes")
        else
          .ok [("version", VERSION),
               ("nonce", b64encode nonce),
               ("ephemPublicKey", b64encode (scalarmultBase ephSk)),
               ("ciphertext", b64encode
                 ((boxEncrypt (sharedKey ephSk pubBytes) nonce (utf8Encode msg)).drop 24))]

/-- `Encryption.encrypt_message`. -/
def encrypt_message (receiver_public_key msg : String)
    (ephSk nonce : List Nat) : Except PyExc Env :=
  wrapErrors "Encryption failed: " (encryptBody receiver_public_key msg ephSk nonce)

/-- Body of `decrypt_message` (the code inside the outer `try`). -/
def decryptBody (private_key : String) (env : Env) : Except PyExc String :=
  match env.lookup "version", env.lookup "nonce",
      env.lookup "ephemPublicKey", env.lookup "ciphertext" with
  | some ver, some nonceS, some ephS, some ctS =>
    if ver ≠ VERSION then
      .error (.invalidMessage ("Unsupported version: " ++ ver))
    else
      match pyB64Decode private_key with
      | .error e =>
        .error (.invalidKey ("Invalid private key: Failed to decode data: " ++ e))
      | .ok skBytes =>
        if skBytes.length ≠ 32 then
          .error (.invalidKey
            "Invalid private key: PrivateKey must be created from a 32 byte seed")
        else
          match pyB64Decode nonceS with
          | .error e =>
            .error (.invalidMessage ("Invalid message format: Failed to decode data: " ++ e))
          | .ok nonceB =>
            match pyB64Decode ephS with
            | .error e =>
              .error (.invalidMessage ("Invalid message format: Failed to decode data: " ++ e))
            | .ok ephB =>
              if ephB.length ≠ 32 then
                .error (.invalidMessage
                  "Invalid message format: PublicKey must be created from 32 bytes")
              else
                match pyB64Decode ctS with
                | .error e =>
                  .error (.invalidMessage
                    ("Invalid message format: Failed to decode data: " ++ e))
                | .ok ctB =>
                  match boxDecrypt (sharedKey skBytes ephB) nonceB ctB with
                  | .error e => .error e
                  | .ok plain =>
                    match utf8Decode plain with
                    | some s => .ok s
                    | none =>
                      .error (.encryptionError
                        "Failed to decode decrypted message: invalid utf-8")
  | _, _, _, _ => .error (.invalidMessage "Missing required fields in encrypted data")

/-- `Encryption.decrypt_message`. -/
def decrypt_message (private_key : String) (env : Env) : Except PyExc String :=
  wrapErrors "Decryption failed: " (decryptBody private_key env)

/-- Result of `Encryption.generate_key_pair`. -/
structure KeyPair where
  privateKey : String
  publicKey : String
deriving DecidableEq

/-- `Encryption.generate_key_pair`; the 32 random bytes drawn by
`PrivateKey.generate()` are the explicit argument `seed`. -/
def generate_key_pair (seed : List Nat) : KeyPair :=
  { privateKey := b64encode seed
    publicKey := b64encode (scalarmultBase seed) }

/-- `Encryption.get_public_key`: every failure becomes
`InvalidKeyError`. -/
def get_public_key (private_key : String) : Except PyExc String :=
  match pyB64Decode private_key with
  | .error e => .error (.invalidKey ("Invalid private key: " ++ e))
  | .ok bs =>
    if bs.length ≠ 32 then
      .error (.invalidKey
        "Invalid private key: PrivateKey must be created from a 32 byte seed")
    else
      .ok (b64encode (scalarmultBase bs))

/-- `Encryption.validate_encrypted_message_format` (the `isinstance`
checks are subsumed by typing). -/
def validate_encrypted_message_format (env : Env) : Except PyExc Unit :=
  match env.lookup "version", env.lookup "nonce",
      env.lookup "ephemPublicKey", env.lookup "ciphertext" with
  | some ver, some nonceS, some ephS, some ctS =>
    if ver = "" ∨ nonceS = "" ∨ ephS = "" ∨ ctS = "" then
      .error (.invalidMessage "Field cannot be empty")
    else
      .ok ()
  | _, _, _, _ => .error (.invalidMessage "Missing required fields")

/-- `Encryption.is_valid_key`: for `"public"` the decoded length must
be `PublicKey.SIZE = 32`; any other `key_type` takes the private-key
branch, where `PrivateKey(decoded)` succeeds exactly when the decoded
length is 32. -/
def is_valid_key (key : String) (key_type : String) : Bool :=
  match pyB64Decode key with
  | .error _ => false
  | .ok bs =>
    if key_type = "public" then decide (bs.length = 32)
    else decide (bs.length = 32)

/-- Value of one hexadecimal digit. -/
def hexDigit (c : Char) : Option Nat :=
  let n := c.toNat
  if 48 ≤ n ∧ n ≤ 57 then some (n - 48)
  else if 97 ≤ n ∧ n ≤ 102 then some (n - 97 + 10)
  else if 65 ≤ n ∧ n ≤ 70 then some (n - 65 + 10)
  else none

/-- Model of `bytes.fromhex` on a run of hex digit pairs (the optional
ASCII spaces the stdlib tolerates between pairs are not modelled; no
claim depends on them). -/
def hexPairs : List Char → Option (List Nat)
  | [] => some []
  | [_] => none
  | c1 :: c2 :: r =>
    match hexDigit c1, hexDigit c2, hexPairs r with
    | some a, some b, some t => some ((a * 16 + b) :: t)
    | _, _, _ => none

/-- Key argument of `format_key`: `bytes` or `str`. -/
inductive PyKeyInput where
  | bytesKey (bs : List Nat)
  | strKey (s : String)
deriving DecidableEq

/-- `Encryption.format_key`: every failure (including the explicit
`InvalidKeyError` raised inside the `try`) surfaces as
`InvalidKeyError`. -/
def format_key (key : PyKeyInput) (input_encoding : String) : Except PyExc String :=
  match key, input_encoding with
  | .bytesKey bs, "raw" => .ok (b64encode bs)
  | .strKey s, "base64" =>
    match pyB64Decode s with
    | .ok _ => .ok s
    | .error e => .error (.invalidKey ("Failed to format key: " ++ e))
  | .strKey s, "hex" =>
    match hexPairs s.data with
    | some bs => .ok (b64encode bs)
    | none => .error (.invalidKey "Failed to format key: non-hexadecimal number")
  | _, _ =>
    .error (.invalidKey "Failed to format key: Invalid key format or encoding specified")

/-! ## Infrastructure lemmas -/

theorem xor_byte_lt {a b : Nat} (ha : a < 256) (hb : b < 256) : a ^^^ b < 256 := by
  have h1 : a < 2 ^ 8 := by omega
  have h2 : b < 2 ^ 8 := by omega
  have h3 := Nat.xor_lt_two_pow h1 h2
  omega

set_option maxRecDepth 4096 in
theorem byteFlip : ∀ b, b < 256 → ∀ j, j < 8 →
    ((b ^^^ 2 ^ j) = b + 2 ^ j ∨ b = (b ^^^ 2 ^ j) + 2 ^ j) ∧ (b ^^^ 2 ^ j) < 256 := by
  decide

theorem set_ne_of_ne (l : List Nat) (i v : Nat) (h : i < l.length)
    (hne : v ≠ l.getD i 0) : l.set i v ≠ l := by
  intro heq
  have h2 := congrArg (fun t => t.getD i 0) heq
  simp only [List.getD_eq_getElem?_getD] at h2
  rw [List.getElem?_set_self (by simpa using h)] at h2
  simp at h2
  refine hne ?_
  rw [List.getD_eq_getElem?_getD]
  exact h2

theorem add_mod_ne (m A d : Nat) (hd : ¬ (m ∣ d)) : (A + d) % m ≠ A % m := by
  intro h
  have h2 : A ≡ A + d [MOD m] := h.symm
  rw [Nat.modEq_iff_dvd' (by omega)] at h2
  simp at h2
  exact hd h2

theorem mul_mod_absorb (a x m : Nat) : (a * (x % m)) % m = (a * x) % m := by
  conv_lhs => rw [Nat.mul_mod, Nat.mod_mod_of_dvd _ dvd_rfl, ← Nat.mul_mod]

theorem bytesToNat_set (bs : List Nat) (i v : Nat) (h : i < bs.length) :
    bytesToNat (bs.set i v) + 256 ^ i * bs.getD i 0 =
      bytesToNat bs + 256 ^ i * v := by
  induction bs generalizing i with
  | nil => simp at h
  | cons b rest ih =>
    cases i with
    | zero => simp [bytesToNat, List.set]; ring
    | succ n =>
      have hn : n < rest.length := by simpa using h
      have := ih n hn
      simp only [List.set, bytesToNat, List.getD_cons_succ]
      ring_nf
      ring_nf at this
      omega

theorem polyAcc_set (bs : List Nat) (i v : Nat) (h : i < bs.length) :
    polyAcc (bs.set i v) + 7 ^ (i + 1) * bs.getD i 0 =
      polyAcc bs + 7 ^ (i + 1) * v := by
  induction bs generalizing i with
  | nil => simp at h
  | cons b rest ih =>
    cases i with
    | zero => simp [polyAcc, List.set]; ring
    | succ n =>
      have hn : n < rest.length := by simpa using h
      have := ih n hn
      simp only [List.set, polyAcc, List.getD_cons_succ]
      ring_nf
      ring_nf at this
      omega

theorem xorStream_length (k n : Nat) : ∀ (i : Nat) (l : List Nat),
    (xorStream k n i l).length = l.length := by
  intro i l
  induction l generalizing i with
  | nil => rfl
  | cons b r ih => simp [xorStream, ih]

theorem xorStream_wf (k n : Nat) : ∀ (i : Nat) (l : List Nat), BytesWF l →
    BytesWF (xorStream k n i l) := by
  intro i l
  induction l generalizing i with
  | nil => intro _; intro b hb; simp [xorStream] at hb
  | cons b r ih =>
    intro hwf x hx
    simp only [xorStream, List.mem_cons] at hx
    rcases hx with h | h
    · subst h
      exact xor_byte_lt (hwf b (by simp)) (Nat.mod_lt _ (by omega))
    · exact ih (i + 1) (fun y hy => hwf y (by simp [hy])) x h

theorem xorStream_involution (k n : Nat) : ∀ (i : Nat) (l : List Nat),
    xorStream k n i (xorStream k n i l) = l := by
  intro i l
  induction l generalizing i with
  | nil => rfl
  | cons b r ih =>
    simp only [xorStream, ih]
    rw [Nat.xor_cancel_right]

/-! Arithmetic facts about the model constants, all by computation. -/

theorem P_pos : 0 < P := by decide

theorem Q_pos : 0 < Q := by decide

theorem P_lt_Q : P < Q := by decide

theorem P_lt_byte32 : P < 256 ^ 32 := by decide

theorem Q_lt_byte16 : Q < 256 ^ 16 := by decide

theorem coprime_Q_two : Nat.Coprime Q 2 := by decide

theorem coprime_Q_three : Nat.Coprime Q 3 := by decide

theorem coprime_Q_five : Nat.Coprime Q 5 := by decide

theorem coprime_Q_seven : Nat.Coprime Q 7 := by decide

theorem coprime_Q_byte : Nat.Coprime Q 256 := by decide

theorem coprime_P_two : Nat.Coprime P 2 := by decide

theorem clampScalar_pos (sk : List Nat) : 0 < clampScalar sk := by
  simp [clampScalar]

theorem clampScalar_lt (sk : List Nat) : clampScalar sk < P := by
  have h : bytesToNat sk % (P - 1) < P - 1 := Nat.mod_lt _ (by decide)
  simp only [clampScalar]
  omega

theorem sharedKey_lt (sk pk : List Nat) : sharedKey sk pk < P :=
  Nat.mod_lt _ P_pos

theorem tagNat_lt (k : Nat) (nonce body : List Nat) : tagNat k nonce body < Q :=
  Nat.mod_lt _ Q_pos

theorem scalarmultBase_length (sk : List Nat) : (scalarmultBase sk).length = 32 :=
  natToBytesLE_length ..

theorem scalarmultBase_wf (sk : List Nat) : BytesWF (scalarmultBase sk) :=
  natToBytesLE_wf 32 _

theorem macTag_length (k : Nat) (nonce body : List Nat) :
    (macTag k nonce body).length = 16 := natToBytesLE_length ..

theorem macTag_wf (k : Nat) (nonce body : List Nat) :
    BytesWF (macTag k nonce body) := natToBytesLE_wf 16 _

theorem macTag_inj {k k2 : Nat} {n n2 b b2 : List Nat}
    (h : macTag k n b = macTag k2 n2 b2) : tagNat k n b = tagNat k2 n2 b2 := by
  have h1 : tagNat k n b < 256 ^ 16 := Nat.lt_trans (tagNat_lt ..) Q_lt_byte16
  have h2 : tagNat k2 n2 b2 < 256 ^ 16 := Nat.lt_trans (tagNat_lt ..) Q_lt_byte16
  have h3 := congrArg bytesToNat h
  simp only [macTag] at h3
  rwa [bytesToNat_natToBytesLE _ _ h1, bytesToNat_natToBytesLE _ _ h2] at h3

theorem bytesToNat_scalarmultBase (sk : List Nat) :
    bytesToNat (scalarmultBase sk) = clampScalar sk * G % P := by
  refine bytesToNat_natToBytesLE _ _ ?_
  exact Nat.lt_trans (Nat.mod_lt _ P_pos) P_lt_byte32

theorem sharedKey_comm (a b : List Nat) :
    sharedKey a (scalarmultBase b) = sharedKey b (scalarmultBase a) := by
  simp only [sharedKey, bytesToNat_scalarmultBase, mul_mod_absorb]
  ring_nf

theorem wrapErrors_ok {pre : String} {r : Except PyExc α} {a : α}
    (h : r = .ok a) : wrapErrors pre r = .ok a := by
  subst h; rfl

theorem wrapErrors_kinds {pre : String} {r : Except PyExc α} {e : PyExc}
    (h : wrapErrors pre r = .error e) :
    (∃ m, e = .invalidKey m) ∨ (∃ m, e = .invalidMessage m) ∨
      (∃ m, e = .encryptionError m) := by
  match r with
  | .ok a => simp [wrapErrors] at h
  | .error (.invalidKey m) =>
    simp only [wrapErrors, Except.error.injEq] at h
    exact Or.inl ⟨m, h.symm⟩
  | .error (.invalidMessage m) =>
    simp only [wrapErrors, Except.error.injEq] at h
    exact Or.inr (Or.inl ⟨m, h.symm⟩)
  | .error (.encryptionError m) =>
    simp only [wrapErrors, Except.error.injEq] at h
    exact Or.inr (Or.inr ⟨_, h.symm⟩)
  | .error (.otherError m) =>
    simp only [wrapErrors, Except.error.injEq] at h
    exact Or.inr (Or.inr ⟨_, h.symm⟩)

theorem wrapErrors_invalid {pre : String} {r : Except PyExc α} {e : PyExc}
    (h : r = .error e) (hi : e.isInvalid = true) : wrapErrors pre r = .error e := by
  subst h
  match e, hi with
  | .invalidKey m, _ => rfl
  | .invalidMessage m, _ => rfl

theorem wrapErrors_wrap {pre : String} {r : Except PyExc α} {e : PyExc}
    (h : r = .error e) (hi : e.isInvalid = false) :
    wrapErrors pre r = .error (.encryptionError (pre ++ e.text)) := by
  subst h
  match e, hi with
  | .encryptionError m, _ => rfl
  | .otherError m, _ => rfl

/-! ## Pipeline lemmas -/

theorem wrapErrors_eq_ok_iff {pre : String} {r : Except PyExc α} {a : α} :
    wrapErrors pre r = .ok a ↔ r = .ok a := by
  constructor
  · intro h
    match r with
    | .ok b => simpa [wrapErrors] using h
    | .error (.invalidKey m) => simp [wrapErrors] at h
    | .error (.invalidMessage m) => simp [wrapErrors] at h
    | .error (.encryptionError m) => simp [wrapErrors] at h
    | .error (.otherError m) => simp [wrapErrors] at h
  · exact wrapErrors_ok

theorem _validate_public_key_error_kind {key : String} {e : PyExc}
    (h : _validate_public_key key = .error e) : ∃ m, e = .invalidKey m := by
  simp only [_validate_public_key] at h
  split at h
  · exact ⟨_, (Except.error.inj h).symm⟩
  · split at h
    · exact ⟨_, (Except.error.inj h).symm⟩
    · split at h
      · exact ⟨_, (Except.error.inj h).symm⟩
      · simp at h

theorem pyB64Decode_empty : pyB64Decode "" = .ok [] := rfl

theorem _validate_public_key_generated (seed : List Nat) :
    _validate_public_key (generate_key_pair seed).publicKey = .ok () := by
  have hr : pyB64Decode (generate_key_pair seed).publicKey = .ok (scalarmultBase seed) :=
    pyB64Decode_b64encode _ (scalarmultBase_wf seed)
  have hne : (generate_key_pair seed).publicKey ≠ "" := by
    intro hc
    rw [hc, pyB64Decode_empty] at hr
    have h0 := Except.ok.inj hr
    have h32 := scalarmultBase_length seed
    rw [← h0] at h32
    simp at h32
  simp only [_validate_public_key, if_neg hne, hr]
  rw [if_neg (by simp [scalarmultBase_length])]

/-- Shape of a successful `encrypt_message`: the envelope is the literal
four-field dictionary built from the receiver key, the message, and the
two random draws. -/
theorem encrypt_ok_shape {pub msg : String} {ephSk nonce : List Nat} {env : Env}
    (h : encrypt_message pub msg ephSk nonce = .ok env) :
    ∃ pubBytes, pyB64Decode pub = .ok pubBytes ∧ pubBytes.length = 32 ∧
      _validate_message msg = .ok () ∧ _validate_public_key pub = .ok () ∧
      env = [("version", VERSION),
             ("nonce", b64encode nonce),
             ("ephemPublicKey", b64encode (scalarmultBase ephSk)),
             ("ciphertext", b64encode
               ((boxEncrypt (sharedKey ephSk pubBytes) nonce (utf8Encode msg)).drop 24))] := by
  simp only [encrypt_message] at h
  rw [wrapErrors_eq_ok_iff] at h
  simp only [encryptBody] at h
  cases hm : _validate_message msg with
  | error e => rw [hm] at h; simp at h
  | ok u =>
    rw [hm] at h
    dsimp only [] at h
    cases hp : _validate_public_key pub with
    | error e => rw [hp] at h; simp at h
    | ok u2 =>
      rw [hp] at h
      dsimp only [] at h
      cases hd : pyB64Decode pub with
      | error e => rw [hd] at h; simp at h
      | ok pubBytes =>
        rw [hd] at h
        dsimp only [] at h
        by_cases hlen : pubBytes.length ≠ 32
        · rw [if_pos hlen] at h; simp at h
        · rw [if_neg hlen] at h
          cases u
          cases u2
          exact ⟨pubBytes, rfl, by omega, rfl, rfl, (Except.ok.inj h).symm⟩

/-! ## C5: message validation boundary -/

/-- C5: `_validate_message` accepts exactly 1,048,576 UTF-8 bytes,
rejects 1,048,577 or more and rejects the empty message, each with
`InvalidMessageError`; `encrypt_message` produces an
`InvalidMessageError` in exactly these cases, and in these cases its
result does not depend on the receiver key (no key material is used). -/
theorem c5_message_boundary :
    (∀ msg : String, utf8ByteLen msg = 1048576 → _validate_message msg = .ok ()) ∧
    (∀ msg : String, 1048577 ≤ utf8ByteLen msg →
      ∃ m, _validate_message msg = .error (.invalidMessage m)) ∧
    (∃ m, _validate_message "" = .error (.invalidMessage m)) ∧
    (∀ (pub msg : String) (ephSk nonce : List Nat),
      (∃ m, encrypt_message pub msg ephSk nonce = .error (.invalidMessage m)) ↔
        (utf8ByteLen msg = 0 ∨ 1048576 < utf8ByteLen msg)) ∧
    (∀ (pub pub2 msg : String) (ephSk nonce : List Nat),
      (utf8ByteLen msg = 0 ∨ 1048576 < utf8ByteLen msg) →
      encrypt_message pub msg ephSk nonce = encrypt_message pub2 msg ephSk nonce) := by
  have hval : ∀ msg : String, utf8ByteLen msg = 0 ∨ 1048576 < utf8ByteLen msg →
      ∃ m, _validate_message msg = .error (.invalidMessage m) := by
    intro msg h
    rcases h with h | h
    · have hemp : msg = "" := (utf8ByteLen_eq_zero_iff msg).1 h
      subst hemp
      exact ⟨"Message cannot be empty", rfl⟩
    · refine ⟨"Message exceeds maximum length", ?_⟩
      simp only [_validate_message, MAX_MESSAGE_LENGTH]
      rw [if_pos (by omega)]
  have hvalok : ∀ msg : String, ¬ (utf8ByteLen msg = 0 ∨ 1048576 < utf8ByteLen msg) →
      _validate_message msg = .ok () := by
    intro msg h
    push_neg at h
    obtain ⟨h0, hle⟩ := h
    simp only [_validate_message, MAX_MESSAGE_LENGTH]
    rw [if_neg (by omega)]
    rw [if_neg (fun hc => h0 (by rw [hc]; rfl))]
  refine ⟨?_, ?_, ?_, ?_, ?_⟩
  · intro msg h
    exact hvalok msg (by omega)
  · intro msg h
    exact hval msg (Or.inr (by omega))
  · exact hval "" (Or.inl rfl)
  · intro pub msg ephSk nonce
    constructor
    · rintro ⟨m, hm⟩
      by_contra hc
      have hok := hvalok msg hc
      simp only [encrypt_message, encryptBody, hok] at hm
      cases hp : _validate_public_key pub with
      | error e =>
        rw [hp] at hm
        obtain ⟨m2, rfl⟩ := _validate_public_key_error_kind hp
        simp [wrapErrors] at hm
      | ok u2 =>
        rw [hp] at hm
        dsimp only [] at hm
        cases hd : pyB64Decode pub with
        | error e => rw [hd] at hm; simp [wrapErrors] at hm
        | ok pubBytes =>
          rw [hd] at hm
          dsimp only [] at hm
          by_cases hlen : pubBytes.length ≠ 32
          · rw [if_pos hlen] at hm; simp [wrapErrors] at hm
          · rw [if_neg hlen] at hm; simp [wrapErrors] at hm
    · intro h
      obtain ⟨m, hm⟩ := hval msg h
      refine ⟨m, ?_⟩
      simp only [encrypt_message, encryptBody, hm]
      rfl
  · intro pub pub2 msg ephSk nonce h
    obtain ⟨m, hm⟩ := hval msg h
    simp only [encrypt_message, encryptBody, hm]

/-- Witness for C5 at concrete inputs: the all-`a` messages of length
exactly 1,048,576 and 1,048,577 and the empty message. -/
theorem c5_message_boundary_witness :
    _validate_message (String.mk (List.replicate 1048576 'a')) = .ok () ∧
    (∃ m, _validate_message (String.mk (List.replicate 1048577 'a')) =
      .error (.invalidMessage m)) ∧
    (∃ m, _validate_message "" = .error (.invalidMessage m)) := by
  have hone : (utf8EncChar 'a').length = 1 := rfl
  have hl : ∀ n : Nat, (((List.replicate n 'a').map utf8EncChar).flatten).length = n := by
    intro n
    induction n with
    | zero => rfl
    | succ k ih =>
      rw [List.replicate_succ, List.map_cons, List.flatten_cons, List.length_append, ih,
        hone]
      omega
  have hlen : ∀ n : Nat, utf8ByteLen (String.mk (List.replicate n 'a')) = n := by
    intro n
    simp only [utf8ByteLen, utf8Encode]
    exact hl n
  exact ⟨c5_message_boundary.1 _ (hlen 1048576),
    c5_message_boundary.2.1 _ (by rw [hlen]),
    c5_message_boundary.2.2.1⟩

/-! ## C7: version gate -/

/-- C7: an envelope whose `version` field is present but differs from
the supported identifier is rejected by `decrypt_message` with
`InvalidMessageError`, and the result does not depend on the private
key — no key decoding, Diffie-Hellman or decryption is even reached. -/
theorem c7_version_gate (env : Env) (priv : String) (v : String)
    (hv : env.lookup "version" = some v) (hne : v ≠ VERSION) :
    (∃ m, decrypt_message priv env = .error (.invalidMessage m)) ∧
    (∀ priv2, decrypt_message priv env = decrypt_message priv2 env) := by
  cases hn : env.lookup "nonce" with
  | none =>
    constructor
    · exact ⟨_, by simp only [decrypt_message, decryptBody, hv, hn]; rfl⟩
    · intro priv2; simp only [decrypt_message, decryptBody, hv, hn]
  | some nonceS =>
    cases he : env.lookup "ephemPublicKey" with
    | none =>
      constructor
      · exact ⟨_, by simp only [decrypt_message, decryptBody, hv, hn, he]; rfl⟩
      · intro priv2; simp only [decrypt_message, decryptBody, hv, hn, he]
    | some ephS =>
      cases hc : env.lookup "ciphertext" with
      | none =>
        constructor
        · exact ⟨_, by simp only [decrypt_message, decryptBody, hv, hn, he, hc]; rfl⟩
        · intro priv2; simp only [decrypt_message, decryptBody, hv, hn, he, hc]
      | some ctS =>
        constructor
        · refine ⟨"Unsupported version: " ++ v, ?_⟩
          simp only [decrypt_message, decryptBody, hv, hn, he, hc, if_pos hne]
          rfl
        · intro priv2
          simp only [decrypt_message, decryptBody, hv, hn, he, hc, if_pos hne]

/-- Witness for C7: a concrete envelope with a wrong version string. -/
theorem c7_version_gate_witness :
    (∃ m, decrypt_message "x" [("version", "v2"), ("nonce", "QQ=="),
      ("ephemPublicKey", "QQ=="), ("ciphertext", "QQ==")] =
        .error (.invalidMessage m)) ∧
    (∀ priv2, decrypt_message "x" [("version", "v2"), ("nonce", "QQ=="),
      ("ephemPublicKey", "QQ=="), ("ciphertext", "QQ==")] =
        decrypt_message priv2 [("version", "v2"), ("nonce", "QQ=="),
          ("ephemPublicKey", "QQ=="), ("ciphertext", "QQ==")]) :=
  c7_version_gate _ "x" "v2" rfl (by decide)

/-! ## C10: lenient base64 decoding -/

/-- C10: Python's `b64decode` discards characters outside the alphabet:
the string below starts with `!`, which is not base64, yet it decodes
to 32 zero bytes and `is_valid_key` accepts it as a public key. -/
theorem c10_lenient_base64 :
    ("!AAAAAAAAAAAAAAAAAAAAAAAAAAAAAAAAAAAAAAAAAAA=".data.any
      (fun c => !(inB64Alphabet c) && (c != '='))) = true ∧
    pyB64Decode "!AAAAAAAAAAAAAAAAAAAAAAAAAAAAAAAAAAAAAAAAAAA=" =
      .ok (List.replicate 32 0) ∧
    is_valid_key "!AAAAAAAAAAAAAAAAAAAAAAAAAAAAAAAAAAAAAAAAAAA=" "public" = true :=
  ⟨rfl, rfl, rfl⟩

/-! ## C8: key validation -/

/-- Refutation of the last clause of C8: `is_valid_key` does not return
`False` for every non-base64 input; this input contains `?`, outside
the base64 alphabet, and is still accepted. -/
theorem c8_counterexample :
    ("?AAAAAAAAAAAAAAAAAAAAAAAAAAAAAAAAAAAAAAAAAAA=".data.any
      (fun c => !(inB64Alphabet c) && (c != '='))) = true ∧
    is_valid_key "?AAAAAAAAAAAAAAAAAAAAAAAAAAAAAAAAAAAAAAAAAAA=" "public" = true :=
  ⟨rfl, rfl⟩

/-- C8 (amended): `is_valid_key` accepts both generated keys, rejects
every key whose decoded length is not 32, and rejects every input whose
decoding raises; but an input that is not valid base64 may still be
accepted when lenient decoding yields 32 bytes. -/
theorem c8_key_validation :
    (∀ seed : List Nat, seed.length = 32 → BytesWF seed →
      is_valid_key (generate_key_pair seed).publicKey "public" = true ∧
      is_valid_key (generate_key_pair seed).privateKey "private" = true) ∧
    (∀ (key t : String) (bs : List Nat), pyB64Decode key = .ok bs → bs.length ≠ 32 →
      is_valid_key key t = false) ∧
    (∀ (key t e : String), pyB64Decode key = .error e →
      is_valid_key key t = false) := by
  refine ⟨?_, ?_, ?_⟩
  · intro seed hlen hwf
    constructor
    · have hr : pyB64Decode (generate_key_pair seed).publicKey =
          .ok (scalarmultBase seed) := pyB64Decode_b64encode _ (scalarmultBase_wf seed)
      simp [is_valid_key, hr, scalarmultBase_length]
    · have hr : pyB64Decode (generate_key_pair seed).privateKey = .ok seed :=
        pyB64Decode_b64encode _ hwf
      simp [is_valid_key, hr, hlen]
  · intro key t bs hd hne
    simp only [is_valid_key, hd]
    split_ifs <;> simpa using hne
  · intro key t e hd
    simp [is_valid_key, hd]

/-- Witness for C8 at concrete inputs: an all-zero generated pair, a
3-byte key, and a string whose decoding raises. -/
theorem c8_key_validation_witness :
    (is_valid_key (generate_key_pair (List.replicate 32 0)).publicKey "public" = true ∧
     is_valid_key (generate_key_pair (List.replicate 32 0)).privateKey "private" = true) ∧
    is_valid_key "QUJD" "public" = false ∧
    is_valid_key "QQ" "private" = false := by
  refine ⟨c8_key_validation.1 _ rfl (by decide), ?_, ?_⟩
  · exact c8_key_validation.2.1 "QUJD" "public" [65, 66, 67] rfl (by decide)
  · exact c8_key_validation.2.2 "QQ" "private" "Incorrect padding" rfl

/-! ## C3: envelope field names -/

/-- Receiver key pair seed used in the concrete C3 envelope. -/
def seed0 : List Nat := List.replicate 32 1

/-- Ephemeral key seed used in the concrete C3 envelope. -/
def eph0 : List Nat := List.replicate 32 2

/-- Nonce bytes used in the concrete C3 envelope. -/
def nonce0 : List Nat := List.replicate 24 3

/-- Concrete envelope produced by `encrypt_message`. -/
def c3Env : Env :=
  (encrypt_message (generate_key_pair seed0).publicKey "hello" eph0 nonce0).toOption.getD []

/-- Refutation of C3 as stated: the third envelope field of the code is
named `ephemPublicKey`, not `ephemeralPublicKey`; a concrete envelope
has no `ephemeralPublicKey` field at all. -/
theorem c3_counterexample :
    encrypt_message (generate_key_pair seed0).publicKey "hello" eph0 nonce0 = .ok c3Env ∧
    c3Env.map Prod.fst = ["version", "nonce", "ephemPublicKey", "ciphertext"] ∧
    c3Env.lookup "ephemeralPublicKey" = none :=
  ⟨rfl, rfl, rfl⟩

/-- C3 (amended): every envelope returned by `encrypt_message` has
exactly the four string fields `version`, `nonce`, `ephemPublicKey`,
`ciphertext` (in this order), and `decrypt_message` reads envelopes
only through exactly these four field names. -/
theorem c3_envelope_fields :
    (∀ (pub msg : String) (ephSk nonce : List Nat) (env : Env),
      encrypt_message pub msg ephSk nonce = .ok env →
      env.map Prod.fst = ["version", "nonce", "ephemPublicKey", "ciphertext"]) ∧
    (∀ (priv : String) (env env2 : Env),
      env.lookup "version" = env2.lookup "version" →
      env.lookup "nonce" = env2.lookup "nonce" →
      env.lookup "ephemPublicKey" = env2.lookup "ephemPublicKey" →
      env.lookup "ciphertext" = env2.lookup "ciphertext" →
      decrypt_message priv env = decrypt_message priv env2) := by
  constructor
  · intro pub msg ephSk nonce env h
    obtain ⟨pb, _, _, _, _, rfl⟩ := encrypt_ok_shape h
    rfl
  · intro priv env env2 h1 h2 h3 h4
    simp only [decrypt_message, decryptBody, h1, h2, h3, h4]

/-- Witness for C3 (amended) at concrete inputs. -/
theorem c3_envelope_fields_witness :
    c3Env.map Prod.fst = ["version", "nonce", "ephemPublicKey", "ciphertext"] ∧
    decrypt_message "k" [("version", "v")] =
      decrypt_message "k" [("version", "v"), ("extra", "x")] := by
  constructor
  · exact c3_envelope_fields.1 (generate_key_pair seed0).publicKey "hello" eph0 nonce0
      c3Env rfl
  · exact c3_envelope_fields.2 "k" _ _ rfl rfl rfl rfl

/-! ## C4: envelope field invariants -/

theorem BytesWF_append {a b : List Nat} (ha : BytesWF a) (hb : BytesWF b) :
    BytesWF (a ++ b) := by
  intro x hx
  rcases List.mem_append.1 hx with h | h
  · exact ha x h
  · exact hb x h

theorem boxEncrypt_drop (k : Nat) (nonce msg : List Nat) (hn : nonce.length = 24) :
    (boxEncrypt k nonce msg).drop 24 =
      macTag k nonce (xorStream k (bytesToNat nonce) 0 msg) ++
        xorStream k (bytesToNat nonce) 0 msg := by
  simp only [boxEncrypt, List.append_assoc]
  rw [← hn, List.drop_left]

/-- C4: a successful `encrypt_message` yields an envelope whose
`version` is the literal algorithm identifier, whose `nonce` decodes to
24 bytes, whose `ephemPublicKey` decodes to 32 bytes, and whose
`ciphertext` decodes to the UTF-8 length of the message plus 16. -/
theorem c4_envelope_shape :
    ∀ (pub msg : String) (ephSk nonce : List Nat) (env : Env),
      nonce.length = 24 → BytesWF nonce →
      encrypt_message pub msg ephSk nonce = .ok env →
      env.lookup "version" = some "x25519-xsalsa20-poly1305" ∧
      (∃ s bs, env.lookup "nonce" = some s ∧ pyB64Decode s = .ok bs ∧ bs.length = 24) ∧
      (∃ s bs, env.lookup "ephemPublicKey" = some s ∧ pyB64Decode s = .ok bs ∧
        bs.length = 32) ∧
      (∃ s bs, env.lookup "ciphertext" = some s ∧ pyB64Decode s = .ok bs ∧
        bs.length = utf8ByteLen msg + 16) := by
  intro pub msg ephSk nonce env hn hwf h
  obtain ⟨pb, hd, hlen, hm, hp, rfl⟩ := encrypt_ok_shape h
  have hctwf : BytesWF ((boxEncrypt (sharedKey ephSk pb) nonce (utf8Encode msg)).drop 24) := by
    rw [boxEncrypt_drop _ _ _ hn]
    exact BytesWF_append (macTag_wf _ _ _) (xorStream_wf _ _ _ _ (utf8Encode_wf msg))
  refine ⟨rfl, ?_, ?_, ?_⟩
  · exact ⟨_, nonce, rfl, pyB64Decode_b64encode _ hwf, hn⟩
  · exact ⟨_, _, rfl, pyB64Decode_b64encode _ (scalarmultBase_wf _), scalarmultBase_length _⟩
  · refine ⟨_, _, rfl, pyB64Decode_b64encode _ hctwf, ?_⟩
    rw [boxEncrypt_drop _ _ _ hn]
    simp only [List.length_append, macTag_length, xorStream_length, utf8ByteLen]
    omega

/-- Witness for C4 at concrete inputs. -/
theorem c4_envelope_shape_witness :
    ((encrypt_message (generate_key_pair (List.replicate 32 5)).publicKey "hi"
        (List.replicate 32 6) (List.replicate 24 7)).toOption.getD []).lookup "version" =
      some "x25519-xsalsa20-poly1305" ∧
    (∃ s bs, ((encrypt_message (generate_key_pair (List.replicate 32 5)).publicKey "hi"
        (List.replicate 32 6) (List.replicate 24 7)).toOption.getD []).lookup "ciphertext" =
      some s ∧ pyB64Decode s = .ok bs ∧ bs.length = utf8ByteLen "hi" + 16) := by
  have h := c4_envelope_shape (generate_key_pair (List.replicate 32 5)).publicKey "hi"
    (List.replicate 32 6) (List.replicate 24 7)
    ((encrypt_message (generate_key_pair (List.replicate 32 5)).publicKey "hi"
        (List.replicate 32 6) (List.replicate 24 7)).toOption.getD [])
    rfl (by decide) rfl
  exact ⟨h.1, h.2.2.2⟩

/-! ## C6: envelope validation in `decrypt_message` -/

/-- Reduction of `decryptBody` once the four fields are present, the
version matches, and the private key decodes to 32 bytes. -/
theorem decryptBody_reduce (priv : String) (env : Env)
    (ver nonceS ephS ctS : String) (skBytes : List Nat)
    (hv : env.lookup "version" = some ver) (hver : ver = VERSION)
    (hn : env.lookup "nonce" = some nonceS)
    (he : env.lookup "ephemPublicKey" = some ephS)
    (hc : env.lookup "ciphertext" = some ctS)
    (hk : pyB64Decode priv = .ok skBytes) (hkl : skBytes.length = 32) :
    decryptBody priv env =
      match pyB64Decode nonceS with
      | .error e =>
        .error (.invalidMessage ("Invalid message format: Failed to decode data: " ++ e))
      | .ok nonceB =>
        match pyB64Decode ephS with
        | .error e =>
          .error (.invalidMessage ("Invalid message format: Failed to decode data: " ++ e))
        | .ok ephB =>
          if ephB.length ≠ 32 then
            .error (.invalidMessage
              "Invalid message format: PublicKey must be created from 32 bytes")
          else
            match pyB64Decode ctS with
            | .error e =>
              .error (.invalidMessage
                ("Invalid message format: Failed to decode data: " ++ e))
            | .ok ctB =>
              match boxDecrypt (sharedKey skBytes ephB) nonceB ctB with
              | .error e => .error e
              | .ok plain =>
                match utf8Decode plain with
                | some s => .ok s
                | none =>
                  .error (.encryptionError
                    "Failed to decode decrypted message: invalid utf-8") := by
  simp only [decryptBody, hv, hn, he, hc]
  rw [if_neg (by simp [hver])]
  rw [hk]
  dsimp only []
  rw [if_neg (by omega)]

/-- Private key of the concrete C6 envelope (32 zero bytes). -/
def c6Priv : String := b64encode (List.replicate 32 0)

/-- Concrete C6 envelope: all four fields present and base64, ephemeral
key of 32 bytes, ciphertext of 20 bytes, but a 23-byte nonce. -/
def c6Env : Env :=
  [("version", VERSION),
   ("nonce", b64encode (List.replicate 23 0)),
   ("ephemPublicKey", b64encode (List.replicate 32 4)),
   ("ciphertext", b64encode (List.replicate 20 9))]

/-- Refutation of C6 as stated: a nonce whose decoded length is 23
(violating the 24-byte invariant) is not rejected with
`InvalidMessageError`; the length is only checked inside
`Box.decrypt`, whose `ValueError` the outer handler turns into an
`EncryptionError`. -/
theorem c6_counterexample :
    pyB64Decode (b64encode (List.replicate 23 0)) = .ok (List.replicate 23 0) ∧
    decrypt_message c6Priv c6Env =
      .error (.encryptionError
        "Decryption failed: The nonce must be exactly 24 bytes long") :=
  ⟨rfl, rfl⟩

/-- C6 (amended): missing fields, base64 decoding failures of the three
binary fields, and a wrong ephemeral-key length are rejected with
`InvalidMessageError`; but a wrong nonce length (24-byte invariant) or
a too-short ciphertext (16-byte invariant) only fails inside the
decryption layer and surfaces as `EncryptionError`. -/
theorem c6_envelope_validation :
    (∀ (priv : String) (env : Env),
      (env.lookup "version" = none ∨ env.lookup "nonce" = none ∨
       env.lookup "ephemPublicKey" = none ∨ env.lookup "ciphertext" = none) →
      ∃ m, decrypt_message priv env = .error (.invalidMessage m)) ∧
    (∀ (priv : String) (env : Env) (ver nonceS ephS ctS : String) (skBytes : List Nat),
      env.lookup "version" = some ver → ver = VERSION →
      env.lookup "nonce" = some nonceS → env.lookup "ephemPublicKey" = some ephS →
      env.lookup "ciphertext" = some ctS →
      pyB64Decode priv = .ok skBytes → skBytes.length = 32 →
      ((∀ e, pyB64Decode nonceS = .error e →
        ∃ m, decrypt_message priv env = .error (.invalidMessage m)) ∧
       (∀ nonceB, pyB64Decode nonceS = .ok nonceB →
        ((∀ e, pyB64Decode ephS = .error e →
          ∃ m, decrypt_message priv env = .error (.invalidMessage m)) ∧
         (∀ ephB, pyB64Decode ephS = .ok ephB →
          (ephB.length ≠ 32 →
            ∃ m, decrypt_message priv env = .error (.invalidMessage m)) ∧
          (ephB.length = 32 →
            ((∀ e, pyB64Decode ctS = .error e →
              ∃ m, decrypt_message priv env = .error (.invalidMessage m)) ∧
             (∀ ctB, pyB64Decode ctS = .ok ctB →
              (nonceB.length ≠ 24 →
                ∃ m, decrypt_message priv env = .error (.encryptionError m)) ∧
              (nonceB.length = 24 → ctB.length < 16 →
                ∃ m, decrypt_message priv env =
                  .error (.encryptionError m)))))))))) := by
  constructor
  · intro priv env h
    rcases hv : env.lookup "version" with _ | v <;>
    rcases hn : env.lookup "nonce" with _ | n <;>
    rcases he : env.lookup "ephemPublicKey" with _ | e <;>
    rcases hc : env.lookup "ciphertext" with _ | c <;>
      simp only [decrypt_message, decryptBody, hv, hn, he, hc] <;>
      first
        | exact ⟨"Missing required fields in encrypted data", rfl⟩
        | (exfalso; rcases h with h | h | h | h <;> simp_all)
  · intro priv env ver nonceS ephS ctS skBytes hv hver hn he hc hk hkl
    have hred := decryptBody_reduce priv env ver nonceS ephS ctS skBytes
      hv hver hn he hc hk hkl
    constructor
    · intro e hde
      refine ⟨"Invalid message format: Failed to decode data: " ++ e, ?_⟩
      simp only [decrypt_message, hred, hde]
      rfl
    · intro nonceB hdn
      constructor
      · intro e hde
        refine ⟨"Invalid message format: Failed to decode data: " ++ e, ?_⟩
        simp only [decrypt_message, hred, hdn, hde]
        rfl
      · intro ephB hdeph
        constructor
        · intro hel
          refine ⟨"Invalid message format: PublicKey must be created from 32 bytes", ?_⟩
          simp only [decrypt_message, hred, hdn, hdeph]
          rw [if_pos hel]
          rfl
        · intro hel
          constructor
          · intro e hdc
            refine ⟨"Invalid message format: Failed to decode data: " ++ e, ?_⟩
            simp only [decrypt_message, hred, hdn, hdeph]
            rw [if_neg (by omega)]
            rw [hdc]
            rfl
          · intro ctB hdc
            constructor
            · intro hnl
              refine ⟨"Decryption failed: The nonce must be exactly 24 bytes long", ?_⟩
              simp only [decrypt_message, hred, hdn, hdeph]
              rw [if_neg (by omega)]
              rw [hdc]
              dsimp only []
              simp only [boxDecrypt, if_pos hnl]
              rfl
            · intro hnl hcl
              refine ⟨"Decryption failed: An error occurred trying to decrypt the message", ?_⟩
              simp only [decrypt_message, hred, hdn, hdeph]
              rw [if_neg (by omega)]
              rw [hdc]
              dsimp only []
              have htake : ctB.take 16 ≠
                  macTag (sharedKey skBytes ephB) nonceB (ctB.drop 16) := by
                intro heq
                have hl := congrArg List.length heq
                rw [List.length_take, macTag_length] at hl
                omega
              have h24 : ¬ (nonceB.length ≠ 24) := by omega
              simp only [boxDecrypt]
              rw [if_neg h24, if_neg htake]
              rfl

/-- Witness for C6 (amended) at concrete inputs: an empty envelope, and
an envelope with a 23-byte nonce and a 4-byte ciphertext. -/
theorem c6_envelope_validation_witness :
    (∃ m, decrypt_message "x" [] = .error (.invalidMessage m)) ∧
    (∃ m, decrypt_message c6Priv c6Env = .error (.encryptionError m)) ∧
    (∃ m, decrypt_message c6Priv
      [("version", VERSION),
       ("nonce", b64encode (List.replicate 24 0)),
       ("ephemPublicKey", b64encode (List.replicate 32 4)),
       ("ciphertext", b64encode (List.replicate 4 9))] =
        .error (.encryptionError m)) := by
  refine ⟨c6_envelope_validation.1 "x" [] (Or.inl rfl), ?_, ?_⟩
  · exact (((((c6_envelope_validation.2 c6Priv c6Env VERSION
      (b64encode (List.replicate 23 0)) (b64encode (List.replicate 32 4))
      (b64encode (List.replicate 20 9))
      (List.replicate 32 0) rfl rfl rfl rfl rfl rfl (by decide)).2
      (List.replicate 23 0) rfl).2 (List.replicate 32 4)
      rfl).2 (by decide)).2 (List.replicate 20 9) rfl).1
      (by decide)
  · exact (((((c6_envelope_validation.2 c6Priv
      [("version", VERSION),
       ("nonce", b64encode (List.replicate 24 0)),
       ("ephemPublicKey", b64encode (List.replicate 32 4)),
       ("ciphertext", b64encode (List.replicate 4 9))] VERSION
      (b64encode (List.replicate 24 0)) (b64encode (List.replicate 32 4))
      (b64encode (List.replicate 4 9))
      (List.replicate 32 0) rfl rfl rfl rfl rfl rfl (by decide)).2
      (List.replicate 24 0) rfl).2 (List.replicate 32 4)
      rfl).2 (by decide)).2 (List.replicate 4 9) rfl).2
      (by decide) (by decide)

/-! ## C9: error taxonomy and propagation -/

/-- C9: every error of the public operations is one of the three kinds
`InvalidKeyError`, `InvalidMessageError`, `EncryptionError` (never a
foreign exception class), and inside `encrypt_message` and
`decrypt_message` an `InvalidKey`/`InvalidMessage` error propagates
unchanged while any other internal failure is wrapped into an
`EncryptionError` carrying the original message.  (In the model
`generate_key_pair` and `is_valid_key` are total and raise nothing.) -/
theorem c9_error_taxonomy :
    (∀ (pub msg : String) (ephSk nonce : List Nat) (e : PyExc),
      encrypt_message pub msg ephSk nonce = .error e →
      (∃ m, e = .invalidKey m) ∨ (∃ m, e = .invalidMessage m) ∨
        (∃ m, e = .encryptionError m)) ∧
    (∀ (priv : String) (env : Env) (e : PyExc),
      decrypt_message priv env = .error e →
      (∃ m, e = .invalidKey m) ∨ (∃ m, e = .invalidMessage m) ∨
        (∃ m, e = .encryptionError m)) ∧
    (∀ (priv : String) (e : PyExc), get_public_key priv = .error e →
      ∃ m, e = .invalidKey m) ∧
    (∀ (env : Env) (e : PyExc), validate_encrypted_message_format env = .error e →
      ∃ m, e = .invalidMessage m) ∧
    (∀ (key : PyKeyInput) (enc : String) (e : PyExc), format_key key enc = .error e →
      ∃ m, e = .invalidKey m) ∧
    (∀ (pub msg : String) (ephSk nonce : List Nat) (e : PyExc),
      encryptBody pub msg ephSk nonce = .error e →
      (e.isInvalid = true → encrypt_message pub msg ephSk nonce = .error e) ∧
      (e.isInvalid = false → encrypt_message pub msg ephSk nonce =
        .error (.encryptionError ("Encryption failed: " ++ e.text)))) ∧
    (∀ (priv : String) (env : Env) (e : PyExc),
      decryptBody priv env = .error e →
      (e.isInvalid = true → decrypt_message priv env = .error e) ∧
      (e.isInvalid = false → decrypt_message priv env =
        .error (.encryptionError ("Decryption failed: " ++ e.text)))) := by
  refine ⟨?_, ?_, ?_, ?_, ?_, ?_, ?_⟩
  · intro pub msg ephSk nonce e h
    exact wrapErrors_kinds h
  · intro priv env e h
    exact wrapErrors_kinds h
  · intro priv e h
    simp only [get_public_key] at h
    split at h
    · exact ⟨_, (Except.error.inj h).symm⟩
    · split at h
      · exact ⟨_, (Except.error.inj h).symm⟩
      · simp at h
  · intro env e h
    simp only [validate_encrypted_message_format] at h
    split at h
    · split at h
      · exact ⟨_, (Except.error.inj h).symm⟩
      · simp at h
    · exact ⟨_, (Except.error.inj h).symm⟩
  · intro key enc e h
    simp only [format_key] at h
    split at h
    · simp at h
    · split at h
      · simp at h
      · exact ⟨_, (Except.error.inj h).symm⟩
    · split at h
      · simp at h
      · exact ⟨_, (Except.error.inj h).symm⟩
    · exact ⟨_, (Except.error.inj h).symm⟩
  · intro pub msg ephSk nonce e h
    exact ⟨fun hi => wrapErrors_invalid h hi, fun hi => wrapErrors_wrap h hi⟩
  · intro priv env e h
    exact ⟨fun hi => wrapErrors_invalid h hi, fun hi => wrapErrors_wrap h hi⟩

/-- Witness for C9 at concrete inputs: the missing-fields error of
`decrypt_message` on an empty envelope is one of the three kinds and
propagates unchanged from the body. -/
theorem c9_error_taxonomy_witness :
    ((∃ m, (PyExc.invalidMessage "Missing required fields in encrypted data") =
        .invalidKey m) ∨
     (∃ m, (PyExc.invalidMessage "Missing required fields in encrypted data") =
        .invalidMessage m) ∨
     (∃ m, (PyExc.invalidMessage "Missing required fields in encrypted data") =
        .encryptionError m)) ∧
    decrypt_message "x" [] =
      .error (.invalidMessage "Missing required fields in encrypted data") ∧
    (∃ m, PyExc.invalidKey "Invalid private key: PrivateKey must be created from a 32 byte seed" = .invalidKey m) := by
  refine ⟨?_, ?_, ?_⟩
  · exact c9_error_taxonomy.2.1 "x" [] _ rfl
  · exact (c9_error_taxonomy.2.2.2.2.2.2 "x" [] _ rfl).1 rfl
  · exact c9_error_taxonomy.2.2.1 "" _ rfl

/-! ## C1: round trip -/

/-- C1: for every generated key pair and every UTF-8 message of 1 to
1,048,576 bytes, decrypting the encryption returns the message.  The
random draws of the source (key-pair seed, ephemeral seed, nonce) are
universally quantified with their wellformedness. -/
theorem c1_round_trip :
    ∀ (seed ephSk nonce : List Nat) (msg : String),
      seed.length = 32 → BytesWF seed →
      ephSk.length = 32 → BytesWF ephSk →
      nonce.length = 24 → BytesWF nonce →
      0 < utf8ByteLen msg → utf8ByteLen msg ≤ 1048576 →
      ∃ env,
        encrypt_message (generate_key_pair seed).publicKey msg ephSk nonce = .ok env ∧
        decrypt_message (generate_key_pair seed).privateKey env = .ok msg := by
  intro seed ephSk nonce msg hsl hswf hel hewf hnl hnwf hpos hle
  have hvm : _validate_message msg = .ok () := by
    simp only [_validate_message, MAX_MESSAGE_LENGTH]
    rw [if_neg (by omega)]
    rw [if_neg (fun hc => absurd ((utf8ByteLen_eq_zero_iff msg).2 hc) (by omega))]
  have hvp := _validate_public_key_generated seed
  have hdp : pyB64Decode (generate_key_pair seed).publicKey = .ok (scalarmultBase seed) :=
    pyB64Decode_b64encode _ (scalarmultBase_wf seed)
  set k := sharedKey ephSk (scalarmultBase seed) with hk
  set body := xorStream k (bytesToNat nonce) 0 (utf8Encode msg) with hbody
  set ct := (boxEncrypt k nonce (utf8Encode msg)).drop 24 with hct
  have hctval : ct = macTag k nonce body ++ body := by
    rw [hct, boxEncrypt_drop _ _ _ hnl, hbody]
  refine ⟨[("version", VERSION), ("nonce", b64encode nonce),
    ("ephemPublicKey", b64encode (scalarmultBase ephSk)),
    ("ciphertext", b64encode ct)], ?_, ?_⟩
  · simp only [encrypt_message, encryptBody, hvm, hvp, hdp]
    rw [if_neg (by simp [scalarmultBase_length])]
    rfl
  · have hpriv : pyB64Decode (generate_key_pair seed).privateKey = .ok seed :=
      pyB64Decode_b64encode _ hswf
    have hred := decryptBody_reduce (generate_key_pair seed).privateKey
      [("version", VERSION), ("nonce", b64encode nonce),
       ("ephemPublicKey", b64encode (scalarmultBase ephSk)),
       ("ciphertext", b64encode ct)]
      VERSION (b64encode nonce) (b64encode (scalarmultBase ephSk)) (b64encode ct) seed
      rfl rfl rfl rfl rfl hpriv hsl
    simp only [decrypt_message, hred]
    rw [pyB64Decode_b64encode nonce hnwf]
    dsimp only []
    rw [pyB64Decode_b64encode _ (scalarmultBase_wf ephSk)]
    dsimp only []
    rw [if_neg (by simp [scalarmultBase_length])]
    have hctwf : BytesWF ct := by
      rw [hctval]
      refine BytesWF_append (macTag_wf _ _ _) ?_
      rw [hbody]
      exact xorStream_wf _ _ _ _ (utf8Encode_wf msg)
    rw [pyB64Decode_b64encode ct hctwf]
    dsimp only []
    rw [sharedKey_comm seed ephSk, ← hk]
    simp only [boxDecrypt]
    rw [if_neg (by omega)]
    have htake : ct.take 16 = macTag k nonce (ct.drop 16) := by
      rw [hctval]
      rw [show (16 : Nat) = (macTag k nonce body).length from (macTag_length k nonce body).symm]
      rw [List.take_left, List.drop_left]
    rw [if_pos htake]
    dsimp only []
    have hdrop : ct.drop 16 = body := by
      rw [hctval]
      rw [show (16 : Nat) = (macTag k nonce body).length from (macTag_length k nonce body).symm]
      rw [List.drop_left]
    rw [hdrop, hbody, xorStream_involution]
    rw [utf8Decode_utf8Encode]
    rfl

/-- Witness for C1 at concrete inputs: a concrete key pair, ephemeral
seed, nonce and the message `"hello"`. -/
theorem c1_round_trip_witness :
    ∃ env,
      encrypt_message (generate_key_pair (List.replicate 32 11)).publicKey "hello"
        (List.replicate 32 12) (List.replicate 24 13) = .ok env ∧
      decrypt_message (generate_key_pair (List.replicate 32 11)).privateKey env =
        .ok "hello" :=
  c1_round_trip (List.replicate 32 11) (List.replicate 32 12) (List.replicate 24 13)
    "hello" rfl (by decide) rfl (by decide) rfl (by decide) (by decide) (by decide)

/-! ## C2: tamper detection -/

/-- Envelope with one bit of the decoded bytes of field `f` flipped
(bit `j` of byte `i`) and re-encoded; other fields unchanged. -/
def tamperField (env : Env) (f : String) (i j : Nat) : Env :=
  match env.lookup f with
  | some s =>
    match pyB64Decode s with
    | .ok bs => env.map (fun kv =>
        if kv.1 = f then (f, b64encode (bs.set i ((bs.getD i 0) ^^^ 2 ^ j))) else kv)
    | .error _ => env
  | none => env

/-- Decoded byte length of field `f` of an envelope. -/
def decodedLen (env : Env) (f : String) : Nat :=
  match env.lookup f with
  | some s =>
    match pyB64Decode s with
    | .ok bs => bs.length
    | .error _ => 0
  | none => 0

theorem BytesWF_set {l : List Nat} {v : Nat} (hl : BytesWF l) (hv : v < 256)
    (i : Nat) : BytesWF (l.set i v) := by
  intro b hb
  rcases List.mem_or_eq_of_mem_set hb with h | h
  · exact hl b h
  · omega

theorem getD_lt_of_wf {l : List Nat} (hl : BytesWF l) {i : Nat} (h : i < l.length) :
    l.getD i 0 < 256 := by
  refine hl _ ?_
  rw [List.getD_eq_getElem l 0 h]
  exact List.getElem_mem h

/-- Value shift of a byte sequence under a single-bit flip: the value
moves by exactly `2 ^ j * 256 ^ i`, up or down. -/
theorem bytesToNat_flip {bs : List Nat} (hwf : BytesWF bs) {i j : Nat}
    (hi : i < bs.length) (hj : j < 8) :
    bytesToNat (bs.set i ((bs.getD i 0) ^^^ 2 ^ j)) =
        bytesToNat bs + 256 ^ i * 2 ^ j ∨
      bytesToNat bs = bytesToNat (bs.set i ((bs.getD i 0) ^^^ 2 ^ j)) + 256 ^ i * 2 ^ j := by
  have hb := getD_lt_of_wf hwf hi
  have hflip := byteFlip _ hb j hj
  have hset := bytesToNat_set bs i ((bs.getD i 0) ^^^ 2 ^ j) hi
  rcases hflip.1 with h | h
  · left
    rw [show 256 ^ i * (bs.getD i 0 ^^^ 2 ^ j) =
        256 ^ i * bs.getD i 0 + 256 ^ i * 2 ^ j from by
      rw [h, Nat.mul_add]] at hset
    omega
  · right
    rw [show 256 ^ i * bs.getD i 0 =
        256 ^ i * (bs.getD i 0 ^^^ 2 ^ j) + 256 ^ i * 2 ^ j from by
      conv_lhs => rw [h]
      rw [Nat.mul_add]] at hset
    omega

/-- Shift of the polynomial accumulator under a single-bit flip of byte
`i`: it moves by exactly `7 ^ (i + 1) * 2 ^ j`, up or down. -/
theorem polyAcc_flip {bs : List Nat} (hwf : BytesWF bs) {i j : Nat}
    (hi : i < bs.length) (hj : j < 8) :
    polyAcc (bs.set i ((bs.getD i 0) ^^^ 2 ^ j)) =
        polyAcc bs + 7 ^ (i + 1) * 2 ^ j ∨
      polyAcc bs = polyAcc (bs.set i ((bs.getD i 0) ^^^ 2 ^ j)) + 7 ^ (i + 1) * 2 ^ j := by
  have hb := getD_lt_of_wf hwf hi
  have hflip := byteFlip _ hb j hj
  have hset := polyAcc_set bs i ((bs.getD i 0) ^^^ 2 ^ j) hi
  rcases hflip.1 with h | h
  · left
    rw [show 7 ^ (i + 1) * (bs.getD i 0 ^^^ 2 ^ j) =
        7 ^ (i + 1) * bs.getD i 0 + 7 ^ (i + 1) * 2 ^ j from by
      rw [h, Nat.mul_add]] at hset
    omega
  · right
    rw [show 7 ^ (i + 1) * bs.getD i 0 =
        7 ^ (i + 1) * (bs.getD i 0 ^^^ 2 ^ j) + 7 ^ (i + 1) * 2 ^ j from by
      conv_lhs => rw [h]
      rw [Nat.mul_add]] at hset
    omega

theorem not_Q_dvd_nonce_shift (i j : Nat) : ¬ (Q ∣ 5 * (256 ^ i * 2 ^ j)) := by
  intro hdvd
  have hco : Nat.Coprime Q (256 ^ i * 2 ^ j) :=
    Nat.Coprime.mul_right (coprime_Q_byte.pow_right i) (coprime_Q_two.pow_right j)
  have h5 : Q ∣ 5 := hco.dvd_of_dvd_mul_right hdvd
  have := Nat.le_of_dvd (by omega) h5
  have hQ : 5 < Q := by decide
  omega

theorem not_Q_dvd_key_shift {d : Nat} (h0 : 0 < d) (hP : d < P) : ¬ (Q ∣ 3 * d) := by
  intro hdvd
  have hd : Q ∣ d := coprime_Q_three.dvd_of_dvd_mul_left hdvd
  have := Nat.le_of_dvd h0 hd
  have := P_lt_Q
  omega

theorem not_Q_dvd_body_shift (i j : Nat) : ¬ (Q ∣ 7 ^ (i + 1) * 2 ^ j) := by
  intro hdvd
  have hco : Nat.Coprime Q (7 ^ (i + 1) * 2 ^ j) :=
    Nat.Coprime.mul_right (coprime_Q_seven.pow_right (i + 1)) (coprime_Q_two.pow_right j)
  have h1 : Q = 1 := Nat.eq_one_of_dvd_coprimes hco dvd_rfl hdvd
  have : (1 : Nat) < Q := by decide
  omega

theorem coprime_P_byte : Nat.Coprime P 256 := by decide

theorem not_P_dvd_pub_shift (seed : List Nat) (i j : Nat) :
    ¬ (P ∣ clampScalar seed * (256 ^ i * 2 ^ j)) := by
  intro hdvd
  have hco : Nat.Coprime P (256 ^ i * 2 ^ j) :=
    Nat.Coprime.mul_right (coprime_P_byte.pow_right i) (coprime_P_two.pow_right j)
  have hc : P ∣ clampScalar seed := hco.dvd_of_dvd_mul_right hdvd
  have h1 := Nat.le_of_dvd (clampScalar_pos seed) hc
  have h2 := clampScalar_lt seed
  omega

theorem tagNat_ne_nonce {k : Nat} {n n2 body : List Nat} {d : Nat}
    (hd : ¬ (Q ∣ 5 * d)) (h : bytesToNat n2 = bytesToNat n + d) :
    tagNat k n2 body ≠ tagNat k n body := by
  simp only [tagNat, h]
  have he : 3 * k + 5 * (bytesToNat n + d) + polyAcc body + 11 * body.length =
      (3 * k + 5 * bytesToNat n + polyAcc body + 11 * body.length) + 5 * d := by ring
  rw [he]
  exact add_mod_ne Q _ _ hd

theorem tagNat_ne_key {k k2 : Nat} {n body : List Nat} {d : Nat}
    (hd : ¬ (Q ∣ 3 * d)) (h : k2 = k + d) :
    tagNat k2 n body ≠ tagNat k n body := by
  simp only [tagNat, h]
  have he : 3 * (k + d) + 5 * bytesToNat n + polyAcc body + 11 * body.length =
      (3 * k + 5 * bytesToNat n + polyAcc body + 11 * body.length) + 3 * d := by ring
  rw [he]
  exact add_mod_ne Q _ _ hd

theorem tagNat_ne_body {k : Nat} {n body body2 : List Nat} {d : Nat}
    (hd : ¬ (Q ∣ d)) (hlen : body2.length = body.length)
    (h : polyAcc body2 = polyAcc body + d) :
    tagNat k n body2 ≠ tagNat k n body := by
  simp only [tagNat, h, hlen]
  have he : 3 * k + 5 * bytesToNat n + (polyAcc body + d) + 11 * body.length =
      (3 * k + 5 * bytesToNat n + polyAcc body + 11 * body.length) + d := by ring
  rw [he]
  exact add_mod_ne Q _ _ hd

theorem tagNat_ne_of_key_ne {k k2 : Nat} (hk : k < P) (hk2 : k2 < P) (hne : k2 ≠ k)
    (n body : List Nat) : tagNat k2 n body ≠ tagNat k n body := by
  rcases Nat.lt_or_ge k2 k with h | h
  · have hd : k = k2 + (k - k2) := by omega
    have h3 : ¬ (Q ∣ 3 * (k - k2)) := not_Q_dvd_key_shift (by omega) (by omega)
    exact (tagNat_ne_key h3 hd).symm
  · have hlt : k < k2 := by omega
    have hd : k2 = k + (k2 - k) := by omega
    have h3 : ¬ (Q ∣ 3 * (k2 - k)) := not_Q_dvd_key_shift (by omega) (by omega)
    exact tagNat_ne_key h3 hd

/-- Decryption of a well-formed four-field envelope with the matching
private key fails whenever the nonce length is wrong or the
authenticator does not verify. -/
theorem decrypt_fails (seed n2 e2 c2 : List Nat)
    (hswf : BytesWF seed) (hsl : seed.length = 32)
    (hn2 : BytesWF n2) (he2 : BytesWF e2) (hc2 : BytesWF c2)
    (hel2 : e2.length = 32)
    (hfail : n2.length ≠ 24 ∨
      c2.take 16 ≠ macTag (sharedKey seed e2) n2 (c2.drop 16)) :
    ∃ e, decrypt_message (generate_key_pair seed).privateKey
      [("version", VERSION), ("nonce", b64encode n2),
       ("ephemPublicKey", b64encode e2), ("ciphertext", b64encode c2)] = .error e := by
  have hpriv : pyB64Decode (generate_key_pair seed).privateKey = .ok seed :=
    pyB64Decode_b64encode _ hswf
  have hred := decryptBody_reduce (generate_key_pair seed).privateKey
    [("version", VERSION), ("nonce", b64encode n2),
     ("ephemPublicKey", b64encode e2), ("ciphertext", b64encode c2)]
    VERSION (b64encode n2) (b64encode e2) (b64encode c2) seed
    rfl rfl rfl rfl rfl hpriv hsl
  simp only [decrypt_message, hred]
  rw [pyB64Decode_b64encode n2 hn2]
  dsimp only []
  rw [pyB64Decode_b64encode e2 he2]
  dsimp only []
  rw [if_neg (by omega)]
  rw [pyB64Decode_b64encode c2 hc2]
  dsimp only []
  simp only [boxDecrypt]
  by_cases h24 : n2.length ≠ 24
  · rw [if_pos h24]
    exact ⟨_, rfl⟩
  · rcases hfail with h | h
    · exact absurd h h24
    · rw [if_neg h24, if_neg h]
      exact ⟨_, rfl⟩

/-- C2: flipping any single bit of the decoded `nonce`,
`ephemPublicKey`, or `ciphertext` bytes of a valid envelope makes
`decrypt_message` raise an error; it never returns a plaintext for the
tampered envelope. -/
theorem c2_tamper_detection :
    ∀ (seed ephSk nonce : List Nat) (msg : String) (env : Env) (f : String) (i j : Nat),
      seed.length = 32 → BytesWF seed →
      ephSk.length = 32 → BytesWF ephSk →
      nonce.length = 24 → BytesWF nonce →
      encrypt_message (generate_key_pair seed).publicKey msg ephSk nonce = .ok env →
      (f = "nonce" ∨ f = "ephemPublicKey" ∨ f = "ciphertext") →
      i < decodedLen env f → j < 8 →
      ∃ e, decrypt_message (generate_key_pair seed).privateKey
        (tamperField env f i j) = .error e := by
  intro seed ephSk nonce msg env f i j hsl hswf hel hewf hnl hnwf henc hf hi hj
  obtain ⟨pb, hdp2, hpbl, hvm, hvp, henv⟩ := encrypt_ok_shape henc
  have hdp : pyB64Decode (generate_key_pair seed).publicKey = .ok (scalarmultBase seed) :=
    pyB64Decode_b64encode _ (scalarmultBase_wf seed)
  have hpb : pb = scalarmultBase seed := by
    rw [hdp2] at hdp
    exact Except.ok.inj hdp
  rw [hpb] at henv
  subst henv
  set k := sharedKey ephSk (scalarmultBase seed) with hk
  set body := xorStream k (bytesToNat nonce) 0 (utf8Encode msg) with hbody
  set ct := (boxEncrypt k nonce (utf8Encode msg)).drop 24 with hct
  have hctval : ct = macTag k nonce body ++ body := by
    rw [hct, boxEncrypt_drop _ _ _ hnl, ← hbody]
  have hbodywf : BytesWF body := by
    rw [hbody]
    exact xorStream_wf _ _ _ _ (utf8Encode_wf msg)
  have hctwf : BytesWF ct := by
    rw [hctval]
    exact BytesWF_append (macTag_wf _ _ _) hbodywf
  have hmt16 : (macTag k nonce body).length = 16 := macTag_length k nonce body
  have hctlen : ct.length = 16 + body.length := by
    rw [hctval, List.length_append, hmt16]
  have hkk : sharedKey seed (scalarmultBase ephSk) = k := by
    rw [hk]
    exact sharedKey_comm seed ephSk
  have htake : ct.take 16 = macTag k nonce body := by
    rw [hctval, show (16 : Nat) = (macTag k nonce body).length from hmt16.symm,
      List.take_left]
  have hdropv : ct.drop 16 = body := by
    rw [hctval, show (16 : Nat) = (macTag k nonce body).length from hmt16.symm,
      List.drop_left]
  set ENV := [("version", VERSION), ("nonce", b64encode nonce),
    ("ephemPublicKey", b64encode (scalarmultBase ephSk)),
    ("ciphertext", b64encode ct)] with hENV
  rcases hf with hf | hf | hf
  · subst hf
    have hdl : decodedLen ENV "nonce" = nonce.length := by
      simp only [decodedLen]
      rw [show List.lookup "nonce" ENV = some (b64encode nonce) from rfl]
      dsimp only []
      rw [pyB64Decode_b64encode nonce hnwf]
    rw [hdl] at hi
    have hbyte := getD_lt_of_wf hnwf hi
    have hfl := byteFlip _ hbyte j hj
    have hn2wf : BytesWF (nonce.set i ((nonce.getD i 0) ^^^ 2 ^ j)) :=
      BytesWF_set hnwf hfl.2 i
    have htf : tamperField ENV "nonce" i j =
        [("version", VERSION),
         ("nonce", b64encode (nonce.set i ((nonce.getD i 0) ^^^ 2 ^ j))),
         ("ephemPublicKey", b64encode (scalarmultBase ephSk)),
         ("ciphertext", b64encode ct)] := by
      simp only [tamperField]
      rw [show List.lookup "nonce" ENV = some (b64encode nonce) from rfl]
      dsimp only []
      rw [pyB64Decode_b64encode nonce hnwf]
      rfl
    rw [htf]
    refine decrypt_fails seed _ _ _ hswf hsl hn2wf (scalarmultBase_wf ephSk) hctwf
      (scalarmultBase_length ephSk) (Or.inr ?_)
    rw [htake, hdropv, hkk]
    intro heq
    have htag := macTag_inj heq
    rcases bytesToNat_flip hnwf hi hj with hs | hs
    · exact tagNat_ne_nonce (not_Q_dvd_nonce_shift i j) hs htag.symm
    · exact tagNat_ne_nonce (not_Q_dvd_nonce_shift i j) hs htag
  · subst hf
    have hdl : decodedLen ENV "ephemPublicKey" = 32 := by
      simp only [decodedLen]
      rw [show List.lookup "ephemPublicKey" ENV =
        some (b64encode (scalarmultBase ephSk)) from rfl]
      dsimp only []
      rw [pyB64Decode_b64encode _ (scalarmultBase_wf ephSk)]
      exact scalarmultBase_length ephSk
    rw [hdl] at hi
    have hilen : i < (scalarmultBase ephSk).length := by
      rw [scalarmultBase_length]
      exact hi
    have hbyte := getD_lt_of_wf (scalarmultBase_wf ephSk) hilen
    have hfl := byteFlip _ hbyte j hj
    have he2wf : BytesWF ((scalarmultBase ephSk).set i
        (((scalarmultBase ephSk).getD i 0) ^^^ 2 ^ j)) :=
      BytesWF_set (scalarmultBase_wf ephSk) hfl.2 i
    have he2len : ((scalarmultBase ephSk).set i
        (((scalarmultBase ephSk).getD i 0) ^^^ 2 ^ j)).length = 32 := by
      rw [List.length_set, scalarmultBase_length]
    have htf : tamperField ENV "ephemPublicKey" i j =
        [("version", VERSION),
         ("nonce", b64encode nonce),
         ("ephemPublicKey", b64encode ((scalarmultBase ephSk).set i
           (((scalarmultBase ephSk).getD i 0) ^^^ 2 ^ j))),
         ("ciphertext", b64encode ct)] := by
      simp only [tamperField]
      rw [show List.lookup "ephemPublicKey" ENV =
        some (b64encode (scalarmultBase ephSk)) from rfl]
      dsimp only []
      rw [pyB64Decode_b64encode _ (scalarmultBase_wf ephSk)]
      rfl
    rw [htf]
    refine decrypt_fails seed nonce _ ct hswf hsl hnwf he2wf hctwf he2len (Or.inr ?_)
    rw [htake, hdropv]
    intro heq
    have htag := macTag_inj heq
    have hkne : sharedKey seed ((scalarmultBase ephSk).set i
        (((scalarmultBase ephSk).getD i 0) ^^^ 2 ^ j)) ≠ k := by
      rw [← hkk]
      rcases bytesToNat_flip (scalarmultBase_wf ephSk) hilen hj with hs | hs
      · simp only [sharedKey]
        rw [hs, Nat.mul_add]
        exact add_mod_ne P _ _ (not_P_dvd_pub_shift seed i j)
      · simp only [sharedKey]
        rw [hs, Nat.mul_add]
        exact (add_mod_ne P _ _ (not_P_dvd_pub_shift seed i j)).symm
    have hne := tagNat_ne_of_key_ne (by rw [hk]; exact sharedKey_lt _ _)
      (sharedKey_lt _ _) hkne nonce body
    exact hne htag.symm
  · subst hf
    have hdl : decodedLen ENV "ciphertext" = ct.length := by
      simp only [decodedLen]
      rw [show List.lookup "ciphertext" ENV = some (b64encode ct) from rfl]
      dsimp only []
      rw [pyB64Decode_b64encode ct hctwf]
    rw [hdl] at hi
    have hbyte := getD_lt_of_wf hctwf hi
    have hfl := byteFlip _ hbyte j hj
    have hc2wf : BytesWF (ct.set i ((ct.getD i 0) ^^^ 2 ^ j)) :=
      BytesWF_set hctwf hfl.2 i
    have htf : tamperField ENV "ciphertext" i j =
        [("version", VERSION),
         ("nonce", b64encode nonce),
         ("ephemPublicKey", b64encode (scalarmultBase ephSk)),
         ("ciphertext", b64encode (ct.set i ((ct.getD i 0) ^^^ 2 ^ j)))] := by
      simp only [tamperField]
      rw [show List.lookup "ciphertext" ENV = some (b64encode ct) from rfl]
      dsimp only []
      rw [pyB64Decode_b64encode ct hctwf]
      rfl
    rw [htf]
    refine decrypt_fails seed nonce _ _ hswf hsl hnwf (scalarmultBase_wf ephSk) hc2wf
      (scalarmultBase_length ephSk) (Or.inr ?_)
    rw [hkk]
    have h2pos : 0 < 2 ^ j := pow_pos (by omega) j
    by_cases hzone : i < 16
    · have him : i < (macTag k nonce body).length := by omega
      have hc2split : ct.set i ((ct.getD i 0) ^^^ 2 ^ j) =
          (macTag k nonce body).set i ((ct.getD i 0) ^^^ 2 ^ j) ++ body := by
        rw [hctval, List.set_append_left _ _ him]
      have hsetlen : ((macTag k nonce body).set i ((ct.getD i 0) ^^^ 2 ^ j)).length = 16 := by
        rw [List.length_set, hmt16]
      have htk : (ct.set i ((ct.getD i 0) ^^^ 2 ^ j)).take 16 =
          (macTag k nonce body).set i ((ct.getD i 0) ^^^ 2 ^ j) := by
        rw [hc2split, show (16 : Nat) =
          ((macTag k nonce body).set i ((ct.getD i 0) ^^^ 2 ^ j)).length from hsetlen.symm,
          List.take_left]
      have hdk : (ct.set i ((ct.getD i 0) ^^^ 2 ^ j)).drop 16 = body := by
        rw [hc2split, show (16 : Nat) =
          ((macTag k nonce body).set i ((ct.getD i 0) ^^^ 2 ^ j)).length from hsetlen.symm,
          List.drop_left]
      rw [htk, hdk]
      refine set_ne_of_ne _ i _ him ?_
      have hgd : ct.getD i 0 = (macTag k nonce body).getD i 0 := by
        rw [hctval, List.getD_append _ _ _ _ him]
      rw [← hgd]
      rcases hfl.1 with h | h <;> omega
    · push_neg at hzone
      have hidx : i - 16 < body.length := by omega
      have hgd : ct.getD i 0 = body.getD (i - 16) 0 := by
        rw [hctval, List.getD_append_right _ _ _ _ (by omega), hmt16]
      have hc2split : ct.set i ((ct.getD i 0) ^^^ 2 ^ j) =
          macTag k nonce body ++ body.set (i - 16) ((body.getD (i - 16) 0) ^^^ 2 ^ j) := by
        rw [hctval, List.set_append_right _ _ (by omega), hmt16, ← hgd]
        rw [hctval] at hgd ⊢
      have hsl2 : (body.set (i - 16) ((body.getD (i - 16) 0) ^^^ 2 ^ j)).length =
          body.length := List.length_set body _ _
      have htk : (ct.set i ((ct.getD i 0) ^^^ 2 ^ j)).take 16 = macTag k nonce body := by
        rw [hc2split, show (16 : Nat) = (macTag k nonce body).length from hmt16.symm,
          List.take_left]
      have hdk : (ct.set i ((ct.getD i 0) ^^^ 2 ^ j)).drop 16 =
          body.set (i - 16) ((body.getD (i - 16) 0) ^^^ 2 ^ j) := by
        rw [hc2split, show (16 : Nat) = (macTag k nonce body).length from hmt16.symm,
          List.drop_left]
      rw [htk, hdk]
      intro heq
      have htag := macTag_inj heq
      rcases polyAcc_flip hbodywf hidx hj with hs | hs
      · exact tagNat_ne_body (not_Q_dvd_body_shift (i - 16) j) hsl2 hs htag.symm
      · exact tagNat_ne_body (not_Q_dvd_body_shift (i - 16) j) hsl2.symm hs htag

/-- Witness for C2 at concrete inputs: a concrete envelope with bit 0
of byte 0 of the nonce flipped fails to decrypt. -/
theorem c2_tamper_detection_witness :
    ∃ e, decrypt_message (generate_key_pair (List.replicate 32 21)).privateKey
      (tamperField ((encrypt_message (generate_key_pair (List.replicate 32 21)).publicKey
        "hi" (List.replicate 32 22) (List.replicate 24 23)).toOption.getD [])
        "nonce" 0 0) = .error e :=
  c2_tamper_detection (List.replicate 32 21) (List.replicate 32 22) (List.replicate 24 23)
    "hi" _ "nonce" 0 0 rfl (by decide) rfl (by decide) rfl (by decide) rfl
    (Or.inl rfl) (by decide) (by decide)

end Transcryptor
